import Mathlib

/-!
minidocker: RBAC interceptor, job lifecycle, executor, cgroup limits and mount table.

A shallow embedding of `server/rbac.go`, `server/server.go`, the stream handler of
`pb/service_grpc.pb.go`, `executor/job.go`, `executor/executor.go`, `executor/job_linux.go`
and `internal/mount/mount.go`, followed by the properties proved about them.

Conventions of the embedding
* a Go `map[K]V` is a lookup function `K → Option V`; a set `map[K]struct{}` is its membership
  test `K → Bool`;
* a Go `error` is an `Option String` (`none` is `nil`);
* a run-time panic (index out of range, nil dereference, failed type assertion) is the
  result `none` of a function returning `Option`;
* `uint64` job identifiers are natural numbers; where the program computes on machine
  integers (`int64`, `uint`, `int`) the wrap-around is explicit;
* text handled byte by byte is a list of characters;
* wall-clock readings (`time.Now()`) and the outcome of system calls are explicit inputs.
-/

namespace Minidocker

/-! ## gRPC surface used by the interceptor -/

/-- The type `metadata.MD` (`map[string][]string`): a missing key reads as the nil slice. -/
abbrev MD := String → List String

/-- The empty metadata `metadata.MD{}`. -/
def MD.empty : MD := fun _ => []

/-- The call `md.Append(k, vals...)`: the values are appended after the ones already stored under
`k` (keys used in this program are already lower case). -/
def MD.Append (md : MD) (k : String) (vals : List String) : MD :=
  if vals.isEmpty then md else fun k' => if k' = k then md k' ++ vals else md k'

/-- The peer's `AuthInfo`: TLS credentials carrying the common names of the verified peer
certificates (leaf first), or some other kind of credentials. -/
inductive AuthInfo where
  | TLSInfo (PeerCertificates : List String)
  | other
deriving DecidableEq, Repr

/-- The part of a `context.Context` read by `parseMetadata`: the peer, when there is one, and
the incoming request metadata sent by the client, when there is some. -/
structure Context where
  peer : Option AuthInfo
  incoming : Option MD

/-- Unary requests, by the getters they implement: `CreateRequest` has `GetCmd`,
`GetRequest` and `StopRequest` have `GetPid`; `other` stands for any message with neither. -/
inductive Request where
  | CreateRequest (Cmd : String) (Args : List String)
  | GetRequest (Pid : Nat)
  | StopRequest (Pid : Nat)
  | other
deriving DecidableEq, Repr

/-- Unary responses. `CreateResponse` and `GetResponse` have `GetPid`; `StopResponse` has not. -/
inductive Response where
  | CreateResponse (Pid : Nat) (Error : Option String)
  | GetResponse (Found : Bool) (Pid : Nat) (Status : String)
  | StopResponse
deriving DecidableEq, Repr

/-- The type assertion `resp.(PIDGetter)` followed by `GetPid()`; `none` is the panic of a failed
assertion (a nil response or a response without `GetPid`). -/
def Response.asPIDGetter : Option Response → Option Nat
  | some (.CreateResponse pid _) => some pid
  | some (.GetResponse _ pid _) => some pid
  | some .StopResponse => none
  | none => none

/-- A unary handler as seen by the interceptor: the response and error it returns. -/
abbrev UnaryHandler := Request → Option Response × Option String

/-! ## `server/rbac.go` -/

/-- The struct `RBACInterceptor` (the lock is not modelled). -/
structure RBACInterceptor where
  users : String → Option String
  roles : String → Option (String → Bool)
  userToPID : String → Option (Nat → Bool)

/-- The constructor `NewRBACInterceptor` with its template user database. -/
def NewRBACInterceptor : RBACInterceptor where
  users := fun u =>
    if u = "user1" then some "admin"
    else if u = "user2" then some "user"
    else if u = "user3" then some "user"
    else none
  roles := fun r =>
    if r = "admin" then some (fun c => c == "*")
    else if r = "user" then some (fun c => c == "cat" || c == "ls" || c == "sleep" || c == "echo")
    else none
  userToPID := fun _ => none

/-- The method `roleIsAdmin`: `_, isAdmin := i.roles[role]["*"]` (indexing the nil map of a
missing role yields `false`). -/
def RBACInterceptor.roleIsAdmin (i : RBACInterceptor) (role : String) : Bool :=
  match i.roles role with
  | some granted => granted "*"
  | none => false

/-- The method `AuthorizeCmd`. -/
def RBACInterceptor.AuthorizeCmd (i : RBACInterceptor) (role cmd : String) : Bool :=
  match i.roles role with
  | none => false
  | some granted => if granted cmd then true else i.roleIsAdmin role

/-- The method `userIsAdmin`. -/
def RBACInterceptor.userIsAdmin (i : RBACInterceptor) (user : String) : Bool :=
  match i.users user with
  | none => false
  | some role => i.roleIsAdmin role

/-- The method `VerifyOwnership`. -/
def RBACInterceptor.VerifyOwnership (i : RBACInterceptor) (user : String) (pid : Nat) : Bool :=
  match i.userToPID user with
  | some pids => if pids pid then true else i.userIsAdmin user
  | none => i.userIsAdmin user

/-- The method `AttributeOwnership`. -/
def RBACInterceptor.AttributeOwnership (i : RBACInterceptor) (user : String) (pid : Nat) :
    RBACInterceptor :=
  match i.userToPID user with
  | none =>
    { i with userToPID := fun u => if u = user then some (fun q => q == pid) else i.userToPID u }
  | some pids =>
    { i with userToPID := fun u =>
        if u = user then some (fun q => if q = pid then true else pids q) else i.userToPID u }

/-- Membership of the pair `(user, pid)` in the ownership ledger `userToPID`. -/
def RBACInterceptor.owns (i : RBACInterceptor) (user : String) (pid : Nat) : Bool :=
  match i.userToPID user with
  | some pids => pids pid
  | none => false

/-- The method `parseMetadata`. The outer `Option` is the panic of `PeerCertificates[0]` on an
empty certificate list; the inner `Except` is the returned `(metadata.MD, error)`. -/
def RBACInterceptor.parseMetadata (i : RBACInterceptor) (ctx : Context) :
    Option (Except String MD) :=
  match ctx.peer with
  | some p =>
    match p with
    | .other => some (.error "no TLS info found")
    | .TLSInfo certs =>
      match certs with
      | [] => none
      | user :: _ =>
        let md : MD := match ctx.incoming with
          | some m => m
          | none => MD.empty
        let md := md.Append "user" [user]
        let md := md.Append "role" [(i.users user).getD ""]
        some (.ok md)
  | none => some (.error "no peer found from context")

/-- The expression `md[k][0]`; `none` is the index-out-of-range panic. -/
def MD.first (md : MD) (k : String) : Option String := (md k).head?

/-- What `UnaryInterceptor` returns, together with the interceptor state it leaves behind and,
as a record of the call, whether the wrapped handler was invoked. -/
structure UnaryResult where
  resp : Option Response
  respErr : Option String
  i : RBACInterceptor
  handled : Bool

/-- The method `UnaryInterceptor`; `none` is a panic. -/
def RBACInterceptor.UnaryInterceptor (i : RBACInterceptor) (ctx : Context) (req : Request)
    (handler : UnaryHandler) : Option UnaryResult :=
  match i.parseMetadata ctx with
  | none => none
  | some (.error authErr) =>
    some ⟨none, some ("error identifying user: " ++ authErr), i, false⟩
  | some (.ok md) =>
    match md.first "user", md.first "role" with
    | some user, some role =>
      match req with
      | .CreateRequest cmd _ =>
        if !i.AuthorizeCmd role cmd then
          some ⟨none, some ("user " ++ role ++ "/" ++ user ++ " not authorized to run " ++ cmd),
            i, false⟩
        else
          let (resp, e) := handler req
          match Response.asPIDGetter resp with
          | none => none
          | some pid => some ⟨resp, e, i.AttributeOwnership user pid, true⟩
      | .GetRequest pid | .StopRequest pid =>
        if !i.VerifyOwnership user pid then
          some ⟨none, some ("user " ++ role ++ "/" ++ user ++ " not authorized"), i, false⟩
        else
          let (resp, e) := handler req
          some ⟨resp, e, i, true⟩
      | .other =>
        some ⟨none, some ("user " ++ role ++ "/" ++ user ++ " not authorized"), i, false⟩
    | _, _ => none

/-! ### Streaming -/

/-- Messages a stream can be asked to receive into. -/
inductive Message where
  | OutputRequest (Pid : Nat)
  | other
deriving DecidableEq, Repr

/-- The underlying `grpc.ServerStream`, reduced to what `RecvMsg` does: it decodes the next
inbound frame into the buffer it is given, or fails. -/
structure ServerStream where
  inbound : Except String Message
  ctx : Context

/-- The call `ss.RecvMsg(m)` of the underlying stream: the content of `m` is replaced by the
decoded inbound message. -/
def ServerStream.RecvMsg (ss : ServerStream) (_m : Message) : Except String Message :=
  ss.inbound

/-- The struct `wrappedStream`. -/
structure wrappedStream where
  ServerStream : ServerStream
  md : MD
  i : RBACInterceptor
  user : String

/-- The method `wrappedStream.RecvMsg`: `m` is the buffer the caller passes in; the result is
the error, or the buffer as filled by the underlying stream. -/
def wrappedStream.RecvMsg (s : wrappedStream) (m : Message) : Except String Message :=
  match m with
  | .OutputRequest pid =>
    if s.i.VerifyOwnership s.user pid then s.ServerStream.RecvMsg m
    else .error ("user " ++ s.user ++ " not authorized for pid " ++ toString pid)
  | .other => .error ("user " ++ s.user ++ " not authorized to this operation")

/-- The generated `_Scheduler_Stdout_Handler`: it allocates `m := new(OutputRequest)`, whose
`Pid` is the zero value, receives into it, and hands `m` to `SchedulerServer.Stdout`. The result
is the error returned, or the request handed to `Stdout`. -/
def _Scheduler_Stdout_Handler (stream : wrappedStream) : Except String Message :=
  let m := Message.OutputRequest 0
  match stream.RecvMsg m with
  | .error err => .error err
  | .ok m => .ok m

/-- The method `StreamInterceptor`, applied to the `Stdout` handler; `none` is a panic. -/
def RBACInterceptor.StreamInterceptor (i : RBACInterceptor) (ss : ServerStream) :
    Option (Except String Message) :=
  match i.parseMetadata ss.ctx with
  | none => none
  | some (.error err) => some (.error ("error identifying user: " ++ err))
  | some (.ok md) =>
    match md.first "user" with
    | some user => some (_Scheduler_Stdout_Handler ⟨ss, md, i, user⟩)
    | none => none

/-! ## `server/server.go` -/

/-- The method `SchedulerServer.Start`, given what `s.Executor.Start` returned. -/
def SchedulerServer.Start (started : Nat × Option String) : Option Response × Option String :=
  match started with
  | (pid, some err) => (some (.CreateResponse pid (some err)), none)
  | (pid, none) => (some (.CreateResponse pid none), none)

/-! ## `executor/types.go` and `executor/job.go` -/

/-- Wall-clock readings; `0` is the zero value `time.Time{}`. -/
abbrev Time := Nat

/-- The enumeration `State`, in the order of its `iota` constants. -/
inductive State where
  | Queued
  | Running
  | Failed
  | Completed
deriving DecidableEq, Repr

/-- The struct `Status` (the mutex is not modelled). -/
structure Status where
  CreatedAt : Time
  Pid : Int
  StartedAt : Time
  State : State
  TerminatedAt : Time
  err : Option String
deriving DecidableEq, Repr

/-- The fields of `ProcessConfig`. -/
structure ProcessConfig where
  Cmd : String
  Args : List String
  cgroupPrefix : String
  CPUPercent : Nat
  deviceMajor : Nat
  deviceMinor : Nat
  MemoryMB : Nat
  ReadBPS : Nat
  WriteBPS : Nat
deriving DecidableEq, Repr

/-- How the operating system reports the end of a child (`syscall.WaitStatus`): a normal exit
with a code in `0..255`, or termination by a signal. -/
inductive WaitStatus where
  | exited (code : Nat)
  | signaled (sig : Nat)
deriving DecidableEq, Repr

/-- A `*os.ProcessState` as returned by `Process.Wait`; `none` is the nil pointer returned
together with an error. -/
abbrev ProcessState := Option WaitStatus

/-- The standard library's `ProcessState.ExitCode`: the exit code of an exited process, and
`-1` for a nil state or a process terminated by a signal. -/
def ProcessState.ExitCode : ProcessState → Int
  | some (.exited code) => (code : Int)
  | some (.signaled _) => -1
  | none => -1

/-- The standard library's `ProcessState.String`. -/
def ProcessState.String : ProcessState → String
  | some (.exited code) => "exit status " ++ toString code
  | some (.signaled sig) => "signal: " ++ toString sig
  | none => "<nil>"

/-- Signals sent to the child. -/
inductive Signal where
  | SIGTERM
  | SIGKILL
deriving DecidableEq, Repr

/-- The part of `exec.Cmd` the job uses: the path executed, the OS PID of the started process,
the grace period `WaitDelay` in nanoseconds, and the field `Err`, which `exec.CommandContext`
leaves nil for a path that contains a separator. -/
structure Cmd where
  Path : String
  Pid : Int
  WaitDelay : Nat
  Err : Option String := none
deriving DecidableEq, Repr

/-- The struct `process`. The channel `done` is represented by whether it has been closed.
Two fields record the run-time context of the job rather than a Go field: `waiting` holds while
the goroutine launched by `go p.cleanUp()` has not finished, and `signals` lists the signals
sent to the child so far, oldest first. -/
structure process where
  config : ProcessConfig
  cgroupPath : String
  done : Bool
  ID : Nat
  execCmd : Option Cmd
  outputFile : Option String
  started : Nat
  status : Status
  waiting : Bool
  signals : List Signal
deriving DecidableEq, Repr

/-- The constructor `newProcess`; `now` is the reading of `time.Now()`. -/
def newProcess (pid : Nat) (c : ProcessConfig) (now : Time) : process where
  ID := pid
  config := c
  done := false
  cgroupPath := ""
  execCmd := none
  outputFile := none
  started := 0
  status :=
    { CreatedAt := now, Pid := -1, StartedAt := 0, State := .Queued, TerminatedAt := 0,
      err := none }
  waiting := false
  signals := []

/-- The outcome of the system interactions of one call of `process.execute`: `exec.LookPath`,
`os.CreateTemp` (the name of the file created), `p.setupCgroup()` (descriptor, path and error)
and `cmd.Start()` (the OS PID of the child). -/
structure SpawnEnv where
  lookPath : Except String String
  createTemp : Except String String
  setupCgroup : Int × String × Option String
  cmdStart : Except String Int

/-- The method `process.execute`: the process with the fields it assigns, and the returned
`(*exec.Cmd, error)`. The error of `setupCgroup` is discarded as in the source. -/
def process.execute (p : process) (env : SpawnEnv) : process × Except String Cmd :=
  match env.lookPath with
  | .error pathErr => (p, .error pathErr)
  | .ok _path =>
    match env.createTemp with
    | .error openErr => (p, .error openErr)
    | .ok stdout =>
      let (_cgroupFD, cgroupPath, _) := env.setupCgroup
      let p := { p with cgroupPath := cgroupPath, outputFile := some stdout }
      match env.cmdStart with
      | .error err => (p, .error err)
      | .ok pid => (p, .ok { Path := "/proc/self/exe", Pid := pid, WaitDelay := 30 * 1000000000 })

/-- The method `process.Start`: the process afterwards and the returned error. -/
def process.Start (p : process) (now : Time) (env : SpawnEnv) : process × Option String :=
  if p.started ≠ 0 then
    (p, some ("job " ++ toString p.ID ++ " has been started already"))
  else
    let p := { p with started := 1 }
    let p := { p with status := { p.status with StartedAt := now } }
    match p.execute env with
    | (p, .error err) =>
      ({ p with execCmd := none, status := { p.status with State := .Failed } }, some err)
    | (p, .ok cmd) =>
      ({ p with
          execCmd := some cmd
          status := { p.status with Pid := cmd.Pid, State := .Running }
          waiting := true }, none)

/-- The method `process.cleanUp`, run by the waiter goroutine: `state` is what
`p.execCmd.Process.Wait()` returned and `now` the reading of `time.Now()`. -/
def process.cleanUp (p : process) (state : ProcessState) (now : Time) : process :=
  let status := { p.status with TerminatedAt := now }
  let status :=
    if ProcessState.ExitCode state > 0 then
      { status with State := .Failed, err := some (ProcessState.String state) }
    else
      { status with State := .Completed }
  { p with status := status, done := true, waiting := false }

/-- What happens around one `select` of `Stop`: `reap`, when present, is the waiter goroutine
finishing `cleanUp` (with this wait result, at this time) before the `select` resolves;
`tick` tells that the ticker channel is the one chosen when it is ready too. -/
structure Round where
  reap : Option (ProcessState × Time)
  tick : Bool
deriving DecidableEq, Repr

/-- The waiter goroutine finishing, if it is still pending. -/
def process.reaped (p : process) : Option (ProcessState × Time) → process
  | some (state, now) => if p.waiting then p.cleanUp state now else p
  | none => p

/-- The loop `for c := 0; c < 2; c++ { select ... }` of `Stop`, from iteration `c` with `n`
iterations left. With `done` closed and the ticker not chosen the method returns; otherwise the
ticker fires and `SIGKILL` is sent. -/
def process.stopLoop (sched : Nat → Round) : Nat → Nat → process → process
  | 0, _, p => p
  | n + 1, c, p =>
    let p := p.reaped (sched c).reap
    if p.done && !(sched c).tick then p
    else process.stopLoop sched n (c + 1) { p with signals := p.signals ++ [.SIGKILL] }

/-- The method `process.Stop` under the schedule `sched`; `none` is the nil dereference of
`p.execCmd.Cancel()` on a job that has no command. -/
def process.Stop (p : process) (sched : Nat → Round) : Option process :=
  if p.status.State = .Completed ∨ p.status.State = .Failed then some p
  else
    match p.execCmd with
    | none => none
    | some _ =>
      some (process.stopLoop sched 2 0 { p with signals := p.signals ++ [.SIGTERM] })

/-- One operation on a job: a call of `Start`, the waiter goroutine finishing, or a call of
`Stop`. -/
inductive Op where
  | start (now : Time) (env : SpawnEnv)
  | waiter (state : ProcessState) (now : Time)
  | stop (sched : Nat → Round)

/-- The effect of one operation; `none` is a panic. -/
def process.step (p : process) : Op → Option process
  | .start now env => some (p.Start now env).1
  | .waiter state now => some (p.reaped (some (state, now)))
  | .stop sched => p.Stop sched

/-- The effect of a sequence of operations; `none` when one of them panics. -/
def process.run (p : process) : List Op → Option process
  | [] => some p
  | op :: ops =>
    match p.step op with
    | none => none
    | some q => q.run ops

/-- The states a job is observed in along a sequence of operations: before the first one and
after each one, up to a panic. -/
def process.trace (p : process) : List Op → List State
  | [] => [p.status.State]
  | op :: ops =>
    match p.step op with
    | none => [p.status.State]
    | some q => p.status.State :: q.trace ops

/-- The states `Completed` and `Failed`. -/
def State.terminal : State → Bool
  | .Completed => true
  | .Failed => true
  | _ => false

/-- Client-supplied request metadata naming another user and role. -/
def forgedMD : MD := fun k =>
  if k = "user" then ["user1"] else if k = "role" then ["admin"] else []

/-- A ledger in which `user3` started job 5 and then `user2` started job 0. -/
def ledgerAfterTwoStarts : RBACInterceptor :=
  (NewRBACInterceptor.AttributeOwnership "user3" 5).AttributeOwnership "user2" 0

/-- The stream of a client whose certificate has common name `cn`, sending no metadata, whose
first message is a `Stdout` request for job `pid`. -/
def stdoutStream (cn : String) (pid : Nat) : ServerStream :=
  { inbound := .ok (.OutputRequest pid), ctx := ⟨some (.TLSInfo [cn]), none⟩ }

/-- The relation between the fields of a job that every reachable job satisfies, state by
state: a `Queued` job has not been started, a `Running` job has a command and a pending waiter,
and a job in a final state has been started and has no pending waiter. -/
def process.wf (p : process) : Prop :=
  match p.status.State with
  | .Queued => p.started = 0 ∧ p.waiting = false ∧ p.done = false
  | .Running => p.started ≠ 0 ∧ p.waiting = true ∧ p.done = false ∧ p.execCmd ≠ none
  | .Failed => p.started ≠ 0 ∧ p.waiting = false
  | .Completed => p.started ≠ 0 ∧ p.waiting = false ∧ p.done = true

instance (p : process) : Decidable p.wf := by
  unfold process.wf
  cases p.status.State <;> exact inferInstance

/-- A configuration running `bash -c "sleep 100"` without limits. -/
def sleepConfig : ProcessConfig :=
  { Cmd := "bash", Args := ["-c", "sleep 100"], cgroupPrefix := "", CPUPercent := 0,
    deviceMajor := 0, deviceMinor := 0, MemoryMB := 0, ReadBPS := 0, WriteBPS := 0 }

/-- A spawn in which every system interaction succeeds and the child gets OS PID 4242. -/
def spawnOk : SpawnEnv :=
  { lookPath := .ok "/usr/bin/bash", createTemp := .ok "/tmp/123",
    setupCgroup := (3, "/sys/fs/cgroup/-1", none), cmdStart := .ok 4242 }

/-- A spawn in which the command is not found on the path. -/
def spawnNotFound : SpawnEnv :=
  { lookPath := .error "executable file not found in $PATH", createTemp := .ok "/tmp/123",
    setupCgroup := (3, "/sys/fs/cgroup/-1", none), cmdStart := .ok 4242 }

/-- A schedule in which the waiter never finishes while `Stop` runs. -/
def neverReaped : Nat → Round := fun _ => { reap := none, tick := true }

/-- A schedule in which the child is reaped, killed by signal 9, before the second `select`. -/
def reapedAfterKill : Nat → Round := fun c =>
  if c = 1 then { reap := some (some (.signaled 9), 50), tick := false }
  else { reap := none, tick := false }

/-- The moves of the job state machine: `Queued` to `Running` or `Failed`, `Running` to
`Completed` or `Failed`, and staying in place. -/
def State.next : State → State → Bool
  | .Queued, .Running => true
  | .Queued, .Failed => true
  | .Running, .Completed => true
  | .Running, .Failed => true
  | s, t => s == t

/-! ## `executor/executor.go` -/

/-- The method `State.String`, reading `stateMap`. -/
def State.String : State → String
  | .Queued => "Queued"
  | .Running => "Running"
  | .Failed => "Failed"
  | .Completed => "Completed"

/-- The method `process.Status`: a copy of the status. -/
def process.Status (p : process) : Status := p.status

/-- The struct `ProcInfo`. -/
structure ProcInfo where
  ID : Nat
  CreatedAt : Time
  Error : Option String
  OsPid : Int
  StartedAt : Time
  State : String
  TerminatedAt : Time
deriving DecidableEq, Repr

/-- The struct `Executor`. The map `jobs` is an association list with at most one entry per
key, so that its keys can be enumerated; `nextID` is an `int64`; the identifier `id` is the
text of the UUID. The locks, the wait group and the channel are not modelled. -/
structure Executor where
  deviceMaj : Nat
  deviceMin : Nat
  id : String
  jobs : List (Nat × process)
  nextID : Int

/-- The constructor `New`, given what `mount.GetRootDeviceMajorMinor` returned and the UUID
drawn. -/
def New (device : Except String (Nat × Nat)) (uuid : String) : Except String Executor :=
  match device with
  | .error err => .error ("error reading device info: " ++ err)
  | .ok (maj, min) =>
    .ok { deviceMaj := maj, deviceMin := min, id := uuid, jobs := [], nextID := -1 }

/-- Two's complement wrap-around of an `int64` computation. -/
def wrapInt64 (x : Int) : Int := (x + 9223372036854775808) % 18446744073709551616 -
  9223372036854775808

/-- The conversion `uint64(x)` of an `int64`. -/
def toUint64 (x : Int) : Nat := (x % 18446744073709551616).toNat

/-- The assignment `m[k] = v` on a map held as an association list. -/
def mapInsert (k : Nat) (v : process) (m : List (Nat × process)) : List (Nat × process) :=
  (k, v) :: m.filter (fun e => e.1 ≠ k)

/-- The method `Executor.Get`; the outer `none` is the nil dereference of `p.execCmd`, the
inner `none` the nil result for an unknown ID. -/
def Executor.Get (s : Executor) (ID : Nat) : Option (Option ProcInfo) :=
  match s.jobs.lookup ID with
  | none => some none
  | some p =>
    let status := p.Status
    match p.execCmd with
    | none => none
    | some cmd =>
      some (some
        { ID := p.ID, CreatedAt := status.CreatedAt, OsPid := cmd.Pid,
          State := status.State.String, Error := cmd.Err, TerminatedAt := status.TerminatedAt,
          StartedAt := 0 })

/-- The method `Executor.List`: the keys of `jobs`, in an order Go leaves unspecified. -/
def Executor.List (s : Executor) : List Nat := s.jobs.map (fun e => e.1)

/-- The method `Executor.Start`: the executor afterwards and the returned `(uint64, error)`.
`created` and `now` are the readings of `time.Now()` in `newProcess` and in `process.Start`. -/
def Executor.Start (s : Executor) (c : ProcessConfig) (created now : Time) (env : SpawnEnv) :
    Executor × Nat × Option String :=
  let id := wrapInt64 (s.nextID + 1)
  let s := { s with nextID := id }
  let c :=
    { c with deviceMajor := s.deviceMaj, deviceMinor := s.deviceMin, cgroupPrefix := s.id }
  let p := newProcess (toUint64 id) c created
  match p.Start now env with
  | (_, some err) => (s, 0, some err)
  | (p, none) => ({ s with jobs := mapInsert p.ID p s.jobs }, p.ID, none)

/-- One call of `Executor.Start`: its configuration, the two clock readings and the outcome
of its system interactions. -/
structure StartCall where
  config : ProcessConfig
  created : Time
  now : Time
  env : SpawnEnv

/-- A sequence of `Executor.Start` calls on one executor: the executor afterwards and what the
calls returned, in call order. -/
def runStarts (s : Executor) : List StartCall → Executor × List (Nat × Option String)
  | [] => (s, [])
  | call :: calls =>
    let r := s.Start call.config call.created call.now call.env
    let rs := runStarts r.1 calls
    (rs.1, r.2 :: rs.2)

/-- The IDs returned by the successful calls among the results of a sequence of calls. -/
def successIDs (results : List (Nat × Option String)) : List Nat :=
  results.filterMap (fun r => if r.2.isNone then some r.1 else none)

/-- A new executor on device 8:1. -/
def freshExecutor : Executor :=
  { deviceMaj := 8, deviceMin := 1, id := "0b9d", jobs := [], nextID := -1 }

/-- A call of `Executor.Start` in which the spawn succeeds. -/
def callOk : StartCall := { config := sleepConfig, created := 0, now := 1, env := spawnOk }

/-- A call of `Executor.Start` in which the command is not found. -/
def callNotFound : StartCall :=
  { config := sleepConfig, created := 0, now := 1, env := spawnNotFound }

/-! ## `executor/job_linux.go` -/

/-- The constant `cgroupPath`, the root of the cgroup file system. -/
def cgroupPath : String := "/sys/fs/cgroup"

/-- The variable `maxCPUTime`. -/
def maxCPUTime : Nat := 100000

/-- Multiplication of two `uint` values, 64 bits wide on the Linux targets of the program. -/
def uintMul (a b : Nat) : Nat := (a * b) % 18446744073709551616

/-- The conversion `int(x)` of a `uint`. -/
def uintToInt (x : Nat) : Int :=
  if x < 9223372036854775808 then (x : Int) else (x : Int) - 18446744073709551616

/-- The standard library's `strconv.Itoa`. -/
def Itoa (i : Int) : String := toString i

/-- The outcome of the file-system calls made by `writeCgroup`: the error of `os.MkdirAll`,
the descriptor and error of `unix.Open`, and the error of `os.WriteFile` for a path and a
content. -/
structure CgroupFS where
  mkdirAll : String → Option String
  unixOpen : String → Int × Option String
  writeFile : String → String → Option String

/-- What `writeCgroup` returns, together with a record of the calls of `os.WriteFile` it made,
in order: the name of the control file within the cgroup directory and the content passed. -/
structure CgroupResult where
  fd : Int
  cgroupPath : String
  err : Option String
  written : List (String × String)
deriving DecidableEq, Repr

/-- One statement `if err = os.WriteFile(cgroupPath+"/"+name, content, perm); err != nil
{ return }`: the error case is the function returning with the result so far. -/
def CgroupResult.WriteFile (r : CgroupResult) (fs : CgroupFS) (name content : String) :
    Except CgroupResult CgroupResult :=
  let r' : CgroupResult :=
    { r with
      err := fs.writeFile (r.cgroupPath ++ "/" ++ name) content
      written := r.written ++ [(name, content)] }
  if r'.err.isSome then .error r' else .ok r'

/-- The content written to `io.max`, built in the string buffer. -/
def ioMaxContent (c : ProcessConfig) : String :=
  let stringBuffer := toString c.deviceMajor ++ ":" ++ toString 0
  let stringBuffer :=
    if c.ReadBPS > 1 then stringBuffer ++ " " ++ "rbps=" ++ Itoa (uintToInt c.ReadBPS)
    else stringBuffer
  if c.WriteBPS > 1 then stringBuffer ++ " " ++ "wbps=" ++ Itoa (uintToInt c.WriteBPS)
  else stringBuffer

/-- The function `writeCgroup`. -/
def writeCgroup (pid : Nat) (c : ProcessConfig) (basePath : String) (fs : CgroupFS) :
    CgroupResult :=
  let cgroupPath := basePath ++ "/" ++ c.cgroupPrefix ++ "-" ++ toString pid
  match fs.mkdirAll cgroupPath with
  | some err => { fd := 0, cgroupPath := cgroupPath, err := some err, written := [] }
  | none =>
    let opened := fs.unixOpen cgroupPath
    let r : CgroupResult :=
      { fd := opened.1, cgroupPath := cgroupPath, err := opened.2, written := [] }
    let body : Except CgroupResult CgroupResult := do
      let r ←
        if c.CPUPercent > 0 then
          r.WriteFile fs "cpu.max"
            (toString (uintMul (maxCPUTime / 100) c.CPUPercent) ++ " " ++ toString maxCPUTime)
        else pure r
      let r ←
        if c.MemoryMB > 0 then do
          let memFile := toString (uintMul (uintMul c.MemoryMB 1024) 1024) ++ "\n"
          let r ← r.WriteFile fs "memory.max" memFile
          r.WriteFile fs "memory.high" memFile
        else pure r
      if c.deviceMajor > 1 ∧ (c.ReadBPS ≥ 2 ∨ c.WriteBPS ≥ 2) then
        r.WriteFile fs "io.max" (ioMaxContent c)
      else pure r
    match body with
    | .ok r => r
    | .error r => r

/-- The method `process.setupCgroup`. -/
def process.setupCgroup (p : process) (fs : CgroupFS) : Int × String × Option String :=
  let r := writeCgroup p.ID p.config Minidocker.cgroupPath fs
  (r.fd, r.cgroupPath, r.err)

/-- A file system on which every call succeeds; the directory is opened as descriptor 3. -/
def fsOk : CgroupFS :=
  { mkdirAll := fun _ => none, unixOpen := fun _ => (3, none), writeFile := fun _ _ => none }

/-- A file system on which the cgroup directory can be created and opened but no control file
can be written. -/
def fsReadOnly : CgroupFS :=
  { mkdirAll := fun _ => none, unixOpen := fun _ => (3, none),
    writeFile := fun _ _ => some "permission denied" }

/-- A file system on which the cgroup directory cannot be created. -/
def fsNoMkdir : CgroupFS :=
  { mkdirAll := fun _ => some "mkdir: permission denied", unixOpen := fun _ => (3, none),
    writeFile := fun _ _ => none }

/-- The configuration of `TestCGroupCreation`. -/
def testConfig : ProcessConfig :=
  { Cmd := "", Args := [], cgroupPrefix := "", CPUPercent := 10, deviceMajor := 200,
    deviceMinor := 0, MemoryMB := 10, ReadBPS := 10, WriteBPS := 10 }

/-! ## The configuration built by the `Start` handler of `server/server.go` -/

/-- Modelled from the spec: the message type `ResourceLimits` of the generated file
`pb/service.pb.go`, with the fields the client fills in (`uint32`, `uint64`, `uint32`,
`uint32`). -/
structure ResourceLimits where
  CpuPercentage : Nat
  MemoryMB : Nat
  ReadBPS : Nat
  WriteBPS : Nat
deriving DecidableEq, Repr

/-- Modelled from the spec: the message type `CreateRequest` of the generated file
`pb/service.pb.go`, with the fields the client fills in. -/
structure CreateRequest where
  Cmd : String
  Args : List String
  Limits : Option ResourceLimits
deriving DecidableEq, Repr

/-- The request built by the client's `run`, from the command, its arguments and the values of
the flags `cpu`, `mem`, `rbps` and `wbps`. -/
def clientRun (cmd : String) (args : List String) (processCPU processMEM processRBPS
    processWBPS : Nat) : CreateRequest :=
  { Cmd := cmd, Args := args,
    Limits := some
      { CpuPercentage := processCPU % 4294967296, MemoryMB := processMEM % 18446744073709551616,
        ReadBPS := processRBPS % 4294967296, WriteBPS := processWBPS % 4294967296 } }

/-- The literal `&executor.ProcessConfig{Cmd: r.Cmd, Args: r.Args}` that
`SchedulerServer.Start` passes to `Executor.Start`: every other field has its zero value. -/
def SchedulerServer.StartConfig (r : CreateRequest) : ProcessConfig :=
  { Cmd := r.Cmd, Args := r.Args, cgroupPrefix := "", CPUPercent := 0, deviceMajor := 0,
    deviceMinor := 0, MemoryMB := 0, ReadBPS := 0, WriteBPS := 0 }

/-- The method `SchedulerServer.Start` on an executor: the executor afterwards and the response
and error returned. -/
def SchedulerServer.StartOn (s : Executor) (r : CreateRequest) (created now : Time)
    (env : SpawnEnv) : Executor × Option Response × Option String :=
  let started := s.Start (SchedulerServer.StartConfig r) created now env
  (started.1, SchedulerServer.Start started.2)

/-! ## `internal/mount/mount.go`

Strings handled byte by byte are lists of characters. -/

/-- The standard library's `strings.Split(s, sep)` for a separator of one byte: the pieces of
`s` between the occurrences of `sep`, one more than there are occurrences. -/
def strings.Split (sep : Char) : List Char → List (List Char)
  | [] => [[]]
  | c :: cs =>
    if c = sep then [] :: strings.Split sep cs
    else (c :: (strings.Split sep cs).headD []) :: (strings.Split sep cs).tail

/-- The digit loop of the standard library's `strconv.ParseUint(s, 10, 64)`, from the value `n`
read so far. A byte that is not a decimal digit ends it with a syntax error and the value 0;
an overflow of `uint64` ends it with a range error and the value `2^64 - 1`; whichever comes
first in the string decides. -/
def strconv.ParseUint.loop : List Char → Nat → Nat × Option String
  | [], n => (n, none)
  | c :: cs, n =>
    if c.isDigit = false then (0, some "invalid syntax")
    else if n ≥ 1844674407370955162 then (18446744073709551615, some "value out of range")
    else
      let n1 := (n * 10 + (c.toNat - 48)) % 18446744073709551616
      if n1 < n * 10 ∨ n1 > 18446744073709551615 then
        (18446744073709551615, some "value out of range")
      else strconv.ParseUint.loop cs n1

/-- The standard library's `strconv.ParseUint(s, 10, 64)`. -/
def strconv.ParseUint (s : List Char) : Nat × Option String :=
  if s = [] then (0, some "invalid syntax") else strconv.ParseUint.loop s 0

/-- The standard library's `strconv.ParseInt(s, 10, 0)` on a 64-bit platform: an optional sign,
then `ParseUint`; a syntax error yields the value 0, a range error the nearest bound of
`int`. -/
def strconv.ParseInt (s : List Char) : Int × Option String :=
  if s = [] then (0, some "invalid syntax")
  else
    let neg := s.head? = some '-'
    let digits := if s.head? = some '-' ∨ s.head? = some '+' then s.tail else s
    let r := strconv.ParseUint digits
    if r.2 = some "invalid syntax" then (0, some "invalid syntax")
    else if neg then
      if r.1 > 9223372036854775808 then (-9223372036854775808, some "value out of range")
      else (-(r.1 : Int), none)
    else
      if r.1 ≥ 9223372036854775808 then (9223372036854775807, some "value out of range")
      else ((r.1 : Int), none)

/-- The standard library's `strconv.Atoi` on a 64-bit platform: the value and the error. Its
fast path for strings shorter than 19 bytes returns what `ParseInt` returns on them, so that
`Atoi` is `ParseInt` here. -/
def strconv.Atoi (s : List Char) : Int × Option String := strconv.ParseInt s

/-- The conversion `uint(x)` of an `int`. -/
def toUint (x : Int) : Nat := (x % 18446744073709551616).toNat

/-- The successive results of `reader.ReadString('\n')` on a reader holding the given bytes:
each line up to and including its delimiter with a nil error (`false`), and last the bytes
left after the final delimiter, possibly none, with `io.EOF` (`true`). -/
def ReadStrings : List Char → List (List Char × Bool)
  | [] => [([], true)]
  | c :: rest =>
    if c = '\n' then ([c], false) :: ReadStrings rest
    else
      (c :: ((ReadStrings rest).headD ([], true)).1, ((ReadStrings rest).headD ([], true)).2) ::
        (ReadStrings rest).tail

/-- The body of the loop of `ReadRootFSMount` for one line read with a nil error: `none` when
the loop goes on to the next line, the returned value otherwise. -/
def ReadRootFSMount.body (line : List Char) : Option (Except String (Nat × Nat)) :=
  let tokens := strings.Split ' ' line
  if tokens.length < 6 then
    some (.error ("the kernel may be wrong, found " ++ toString tokens.length ++
      " columns in mountinfo"))
  else if tokens[3]? = tokens[4]? ∧ tokens[3]? = some ['/'] then
    let majorMinor := strings.Split ':' (tokens.getD 2 [])
    if majorMinor.length ≠ 2 then
      some (.error ("the kernel may be wrong, found " ++ toString tokens.length ++
        " columns as maj:min:" ++ String.mk line))
    else
      let major := (strconv.Atoi (majorMinor.getD 0 [])).1
      let minor := (strconv.Atoi (majorMinor.getD 1 [])).1
      some (.ok (toUint major, toUint minor))
  else none

/-- The loop of `ReadRootFSMount` over the successive results of `ReadString`: a result with
`io.EOF` ends the loop, whatever bytes come with it. -/
def ReadRootFSMount.loop : List (List Char × Bool) → Except String (Nat × Nat)
  | [] => .error "no root device found"
  | (line, eof) :: rest =>
    if eof then .error "no root device found"
    else
      match ReadRootFSMount.body line with
      | some result => result
      | none => ReadRootFSMount.loop rest

/-- The function `ReadRootFSMount` on a reader holding the given bytes: the device numbers, or
the error. -/
def ReadRootFSMount (reader : List Char) : Except String (Nat × Nat) :=
  ReadRootFSMount.loop (ReadStrings reader)

/-- A record of the mount table with root `/` and mount point `/`: its fourth and fifth
space-separated fields are both `/`. -/
def rootRecord (line : List Char) : Bool :=
  (strings.Split ' ' line)[3]? = some ['/'] && (strings.Split ' ' line)[4]? = some ['/']

/-- The text of a mount table made of the given lines, each followed by a newline. -/
def mountTable : List (List Char) → List Char
  | [] => []
  | line :: lines => line ++ '\n' :: mountTable lines

/-- The decimal text of a natural number. -/
def decimal (n : Nat) : List Char := Nat.toDigits 10 n

/-- The records of a mount table: its lines as `ReadString` returns them, the last one being
what follows the final newline. -/
def records (table : List Char) : List (List Char) := (ReadStrings table).map (fun r => r.1)

/-! ## `executor/environment.go` and `executor/namespace.go` -/

/-- An environment as a map from variable names to values (`map[string]string`); the nil map
and the empty map both have no key. -/
abbrev EnvMap := List Char → Option (List Char)

/-- The constant `jesArgPrefix`. -/
def jesArgPrefix : List Char := "JES_ARG_".toList

/-- The constant `jesArgCountEnvVar`. -/
def jesArgCountEnvVar : List Char := "JES_ARGC".toList

/-- The constant `jesChildEnvVar`. -/
def jesChildEnvVar : List Char := "JES_CHILD".toList

/-- The constant `jesCmdEnvVar`. -/
def jesCmdEnvVar : List Char := "JES_CMD".toList

/-- The loop `for i, s := range a` of `generateEnv`, from index `i` on. -/
def generateEnv.args : Nat → List (List Char) → List (List Char)
  | _, [] => []
  | i, s :: rest => (jesArgPrefix ++ decimal i ++ '=' :: s) :: generateEnv.args (i + 1) rest

/-- The function `generateEnv`. -/
def generateEnv (c : List Char) (a : List (List Char)) : List (List Char) :=
  generateEnv.args 0 a ++
    [jesCmdEnvVar ++ '=' :: c, jesChildEnvVar ++ '=' :: "true".toList,
      jesArgCountEnvVar ++ '=' :: decimal a.length]

/-- The standard library's `strings.SplitN(s, sep, n)` for a separator of one byte and `n ≥ 0`:
at most `n` pieces, the last one being the unsplit remainder. -/
def strings.SplitN (sep : Char) : List Char → Nat → List (List Char)
  | _, 0 => []
  | s, 1 => [s]
  | [], _ + 2 => [[]]
  | c :: cs, n + 2 =>
    if c = sep then [] :: strings.SplitN sep cs (n + 1)
    else
      (c :: (strings.SplitN sep cs (n + 2)).headD []) :: (strings.SplitN sep cs (n + 2)).tail

/-- The loop of `environmentToMap` over the entries of `os.Environ()`, from the map built so
far; `none` is the index-out-of-range panic of `t[1]`. -/
def environmentToMap.loop (env : EnvMap) : List (List Char) → Option EnvMap
  | [] => some env
  | e :: rest =>
    let t := strings.SplitN '=' e 2
    if t.length > 0 then
      match t[1]? with
      | none => none
      | some v => environmentToMap.loop (fun k => if k = t.getD 0 [] then some v else env k) rest
    else environmentToMap.loop env rest

/-- The function `environmentToMap`, given what `os.Environ()` returns; `none` is a panic. -/
def environmentToMap (environ : List (List Char)) : Option EnvMap :=
  environmentToMap.loop (fun _ => none) environ

/-- The loop `for i := 0; i < n; i++` of `buildExecArgs` with `k` iterations left, from index
`i`: the arguments appended. -/
def buildExecArgs.loop (e : EnvMap) : Nat → Nat → List (List Char)
  | 0, _ => []
  | k + 1, i =>
    match e (jesArgPrefix ++ decimal i) with
    | some v => if v.length > 0 then v :: buildExecArgs.loop e k (i + 1)
      else buildExecArgs.loop e k (i + 1)
    | none => buildExecArgs.loop e k (i + 1)

/-- The function `buildExecArgs`: the returned `(args, err)`, the nil slice being `[]`. -/
def buildExecArgs (e : EnvMap) : List (List Char) × Option String :=
  match e jesCmdEnvVar with
  | none => ([], some (String.mk jesChildEnvVar ++ " must exists and set to a non-empty string"))
  | some cmd =>
    match strconv.Atoi ((e jesArgCountEnvVar).getD []) with
    | (_, some err) => ([], some err)
    | (n, none) =>
      if n > 50 then ([], some "too many arguments, 50 is the limit")
      else (cmd :: buildExecArgs.loop e n.toNat 0, none)

/-- The function `isHelper`. -/
def isHelper (e : EnvMap) : Bool :=
  match e jesChildEnvVar with
  | none => false
  | some v => if v ≠ "true".toList then false else true

/-- The environment map given by a list of bindings, the first binding of a name being the
one in force. -/
def envOf (bindings : List (String × String)) : EnvMap := fun k =>
  (bindings.find? (fun b => b.1.toList = k)).map (fun b => b.2.toList)

/-- The sign-less part of a decimal numeral: what follows a leading `-` or `+`. -/
def decimalDigits (s : List Char) : List Char :=
  if s.head? = some '-' ∨ s.head? = some '+' then s.tail else s

/-- A decimal integer: an optional sign followed by at least one decimal digit. -/
def isDecimalInteger (s : List Char) : Bool :=
  decide (decimalDigits s ≠ []) && (decimalDigits s).all Char.isDigit

/-- The value of a decimal integer. -/
def decimalValue (s : List Char) : Int :=
  if s.head? = some '-' then
    -(((decimalDigits s).foldl (fun (n : Nat) ch => n * 10 + (ch.toNat - 48)) 0 : Nat) : Int)
  else (((decimalDigits s).foldl (fun (n : Nat) ch => n * 10 + (ch.toNat - 48)) 0 : Nat) : Int)

/-! ## `executor/reader.go` -/

/-- The errors a `Read` may return: the sentinel `io.EOF`, or any other error. -/
inductive ReadError where
  | EOF
  | other (msg : String)
deriving DecidableEq, Repr

/-- The struct `pollingReader`. The underlying reader is represented by what each call of its
`Read` returns. -/
structure pollingReader where
  p : process
deriving DecidableEq, Repr

/-- What one call of `pollingReader.Read` does: the returned `(n, err)`, and whether the call
waited for `time.After(250 * time.Millisecond)` before returning. -/
structure ReadResult where
  n : Nat
  err : Option ReadError
  slept : Bool
deriving DecidableEq, Repr

/-- The method `pollingReader.Read`; `underlying` is what `r.reader.Read(b)` returned. -/
def pollingReader.Read (r : pollingReader) (underlying : Nat × Option ReadError) :
    ReadResult :=
  let n := underlying.1
  let err := underlying.2
  if n = 0 ∧ err = some .EOF ∧ r.p.Status.State = .Running then
    { n := n, err := none, slept := decide (n = 0) }
  else
    { n := n, err := err, slept := false }

/-- The method `process.Error`. -/
def process.Error (p : process) : Option String := p.Status.err

/-- The waiter goroutine of the job registered under `ID` finishing with the wait result and
the clock reading `r`: the map and the goroutine hold the same pointer, so the entry of the
map changes. -/
def Executor.reaped (s : Executor) (ID : Nat) (r : ProcessState × Time) : Executor :=
  { s with
    jobs := s.jobs.map (fun e => if e.1 = ID then (e.1, e.2.reaped (some r)) else e) }

/-- A job started successfully and still running. -/
def runningJob : process := ((newProcess 0 sleepConfig 0).Start 1 spawnOk).1

/-- A job whose child has exited with code 0. -/
def completedJob : process := runningJob.reaped (some (some (.exited 0), 2))

/-- A job whose child has exited with code 7. -/
def failedJob : process := runningJob.reaped (some (some (.exited 7), 2))

end Minidocker

namespace Minidocker

/-! ## Properties of the RBAC interceptor -/

theorem roleIsAdmin_iff (i : RBACInterceptor) (role : String) :
    i.roleIsAdmin role = true ↔ ∃ granted, i.roles role = some granted ∧ granted "*" = true := by
  unfold RBACInterceptor.roleIsAdmin
  cases h : i.roles role <;> simp

theorem userIsAdmin_iff (i : RBACInterceptor) (user : String) :
    i.userIsAdmin user = true ↔
      ∃ role granted, i.users user = some role ∧ i.roles role = some granted ∧
        granted "*" = true := by
  unfold RBACInterceptor.userIsAdmin
  cases h : i.users user <;> simp [roleIsAdmin_iff]

theorem parseMetadata_user (i : RBACInterceptor) (cn : String) (chain : List String)
    (incoming : Option MD) :
    ∃ md, i.parseMetadata ⟨some (.TLSInfo (cn :: chain)), incoming⟩ = some (.ok md) ∧
      md "user" = (incoming.getD MD.empty) "user" ++ [cn] ∧
      md "role" = (incoming.getD MD.empty) "role" ++ [(i.users cn).getD ""] := by
  refine ⟨_, rfl, ?_, ?_⟩ <;> cases incoming <;> simp [MD.Append]

/-- C1 (the code departs from the claim): the peer certificate's common name is `user2`, whose
role `user` may not run `rm`. Without client metadata the Start request is refused; the same
request with client-supplied metadata `user: user1`, `role: admin` is authorised, handled, and
the new job is attributed to `user1`: the interceptor authorises with the first `user` and
`role` values, which are the client's, the certificate's being appended after them. -/
theorem UnaryInterceptor_client_metadata_decides :
    (NewRBACInterceptor.UnaryInterceptor ⟨some (.TLSInfo ["user2"]), none⟩
        (.CreateRequest "rm" ["-rf", "/"]) (fun _ => SchedulerServer.Start (7, none))).map
      (fun r => (r.handled, r.resp)) = some (false, none) ∧
    (NewRBACInterceptor.UnaryInterceptor ⟨some (.TLSInfo ["user2"]), some forgedMD⟩
        (.CreateRequest "rm" ["-rf", "/"]) (fun _ => SchedulerServer.Start (7, none))).map
      (fun r => (r.handled, r.resp, r.i.owns "user1" 7, r.i.owns "user2" 7)) =
      some (true, some (.CreateResponse 7 none), true, false) := by
  constructor <;> rfl

theorem Stdout_Handler_ok_iff (s : wrappedStream) (m : Message) :
    _Scheduler_Stdout_Handler s = .ok m ↔
      s.i.VerifyOwnership s.user 0 = true ∧ s.ServerStream.inbound = .ok m := by
  unfold _Scheduler_Stdout_Handler wrappedStream.RecvMsg ServerStream.RecvMsg
  by_cases h : s.i.VerifyOwnership s.user 0 = true
  · simp only [h, if_true, true_and]
    cases hin : s.ServerStream.inbound <;> simp
  · simp [h]

/-- C2 (the code departs from the claim): the wrapper tests ownership on the buffer the
generated handler allocates, whose `Pid` is still 0, before the request is decoded into it.
With `user3` owning job 5 and `user2` owning job 0: `user2`, who does not own job 5, has a
`Stdout` request for job 5 handed to the handler, and `user3`, who owns job 5, has the same
request rejected. -/
theorem RecvMsg_checks_pid_zero :
    ledgerAfterTwoStarts.VerifyOwnership "user2" 5 = false ∧
    ledgerAfterTwoStarts.StreamInterceptor (stdoutStream "user2" 5) =
      some (.ok (.OutputRequest 5)) ∧
    ledgerAfterTwoStarts.VerifyOwnership "user3" 5 = true ∧
    (ledgerAfterTwoStarts.StreamInterceptor (stdoutStream "user3" 5)).map Except.toOption =
      some none := by
  refine ⟨rfl, rfl, rfl, rfl⟩

/-- C3 (the code departs from the claim): `user2` sends an authorised Start (`ls`) whose launch
fails, so that the response carries `Pid = 0` and an error string. The interceptor still
attributes job 0 to `user2`, who owned nothing before and passes the ownership check for
job 0 afterwards. -/
theorem UnaryInterceptor_attributes_failed_start :
    NewRBACInterceptor.VerifyOwnership "user2" 0 = false ∧
    (NewRBACInterceptor.UnaryInterceptor ⟨some (.TLSInfo ["user2"]), none⟩
        (.CreateRequest "ls" []) (fun _ => SchedulerServer.Start (0, some "spawn failed"))).map
      (fun r => (r.resp, r.respErr, r.i.owns "user2" 0, r.i.VerifyOwnership "user2" 0)) =
      some (some (.CreateResponse 0 (some "spawn failed")), none, true, true) := by
  constructor <;> rfl

theorem AuthorizeCmd_iff (i : RBACInterceptor) (role cmd : String) :
    i.AuthorizeCmd role cmd = true ↔
      ∃ granted, i.roles role = some granted ∧ (granted cmd = true ∨ granted "*" = true) := by
  unfold RBACInterceptor.AuthorizeCmd RBACInterceptor.roleIsAdmin
  cases h : i.roles role with
  | none => simp
  | some granted => by_cases hc : granted cmd = true <;> simp [hc]

theorem AuthorizeCmd_admin (cmd : String) :
    NewRBACInterceptor.AuthorizeCmd "admin" cmd = true := by
  rw [AuthorizeCmd_iff]
  exact ⟨fun c => c == "*", rfl, Or.inr rfl⟩

theorem AuthorizeCmd_user (cmd : String) :
    NewRBACInterceptor.AuthorizeCmd "user" cmd = true ↔
      cmd = "cat" ∨ cmd = "ls" ∨ cmd = "sleep" ∨ cmd = "echo" := by
  rw [AuthorizeCmd_iff]
  constructor
  · rintro ⟨granted, hg, h⟩
    have hg' : granted = fun c => c == "cat" || c == "ls" || c == "sleep" || c == "echo" := by
      have : NewRBACInterceptor.roles "user" =
          some (fun c => c == "cat" || c == "ls" || c == "sleep" || c == "echo") := rfl
      rw [this] at hg
      exact (Option.some.inj hg).symm
    subst hg'
    rcases h with h | h
    · simpa [or_assoc] using h
    · exact absurd h (by decide)
  · intro h
    refine ⟨fun c => c == "cat" || c == "ls" || c == "sleep" || c == "echo", rfl, Or.inl ?_⟩
    rcases h with h | h | h | h <;> subst h <;> rfl

theorem AuthorizeCmd_unknown_role (role cmd : String) (h1 : role ≠ "admin")
    (h2 : role ≠ "user") : NewRBACInterceptor.AuthorizeCmd role cmd = false := by
  simp [RBACInterceptor.AuthorizeCmd, NewRBACInterceptor, h1, h2]

/-- C4: `AuthorizeCmd role cmd` holds exactly when the role is configured and its allowed set
contains `cmd` verbatim or the wildcard `*`. With the built-in table, `admin` may run any
string, `user` may run exactly `cat`, `ls`, `sleep` and `echo` (so neither `any` nor `/bin/ls`),
and a role other than these two, the empty role included, may run nothing. -/
theorem AuthorizeCmd_spec :
    (∀ (i : RBACInterceptor) (role cmd : String),
      i.AuthorizeCmd role cmd = true ↔
        ∃ granted, i.roles role = some granted ∧ (granted cmd = true ∨ granted "*" = true)) ∧
    (∀ cmd : String, NewRBACInterceptor.AuthorizeCmd "admin" cmd = true) ∧
    (∀ cmd : String, NewRBACInterceptor.AuthorizeCmd "user" cmd = true ↔
      cmd = "cat" ∨ cmd = "ls" ∨ cmd = "sleep" ∨ cmd = "echo") ∧
    NewRBACInterceptor.AuthorizeCmd "user" "any" = false ∧
    NewRBACInterceptor.AuthorizeCmd "user" "/bin/ls" = false ∧
    (∀ role cmd : String, role ≠ "admin" → role ≠ "user" →
      NewRBACInterceptor.AuthorizeCmd role cmd = false) ∧
    (∀ cmd : String, NewRBACInterceptor.AuthorizeCmd "" cmd = false) :=
  ⟨AuthorizeCmd_iff, AuthorizeCmd_admin, AuthorizeCmd_user, rfl, rfl,
    AuthorizeCmd_unknown_role,
    fun cmd => AuthorizeCmd_unknown_role "" cmd (by decide) (by decide)⟩

/-- Witness for C4: the role `guest` is neither `admin` nor `user` and may not run `ls`, while
`admin` may run `anystring` and `user` may run `ls`, as in `TestCommandAuthorization`. -/
theorem AuthorizeCmd_spec_witness :
    NewRBACInterceptor.AuthorizeCmd "guest" "ls" = false ∧
    NewRBACInterceptor.AuthorizeCmd "admin" "anystring" = true ∧
    NewRBACInterceptor.AuthorizeCmd "user" "ls" = true :=
  ⟨AuthorizeCmd_spec.2.2.2.2.2.1 "guest" "ls" (by decide) (by decide),
    AuthorizeCmd_spec.2.1 "anystring",
    (AuthorizeCmd_spec.2.2.1 "ls").2 (Or.inr (Or.inl rfl))⟩

theorem VerifyOwnership_iff (i : RBACInterceptor) (user : String) (pid : Nat) :
    i.VerifyOwnership user pid = true ↔ i.owns user pid = true ∨ i.userIsAdmin user = true := by
  unfold RBACInterceptor.VerifyOwnership RBACInterceptor.owns
  cases h : i.userToPID user with
  | none => simp
  | some pids => by_cases hp : pids pid = true <;> simp [hp]

theorem owns_AttributeOwnership (i : RBACInterceptor) (user : String) (pid : Nat)
    (user' : String) (pid' : Nat) :
    (i.AttributeOwnership user pid).owns user' pid' = true ↔
      i.owns user' pid' = true ∨ (user' = user ∧ pid' = pid) := by
  unfold RBACInterceptor.AttributeOwnership RBACInterceptor.owns
  cases h : i.userToPID user with
  | none =>
    by_cases hu : user' = user
    · subst hu; simp [h]
    · simp [hu]
  | some pids =>
    by_cases hu : user' = user
    · subst hu
      by_cases hp : pid' = pid
      · simp [h, hp]
      · simp [h, hp]
    · simp [hu]

theorem AttributeOwnership_users (i : RBACInterceptor) (user : String) (pid : Nat) :
    (i.AttributeOwnership user pid).users = i.users ∧
      (i.AttributeOwnership user pid).roles = i.roles := by
  unfold RBACInterceptor.AttributeOwnership
  cases h : i.userToPID user <;> exact ⟨rfl, rfl⟩

theorem userIsAdmin_AttributeOwnership (i : RBACInterceptor) (user : String) (pid : Nat)
    (user' : String) :
    (i.AttributeOwnership user pid).userIsAdmin user' = i.userIsAdmin user' := by
  have h := AttributeOwnership_users i user pid
  simp [RBACInterceptor.userIsAdmin, RBACInterceptor.roleIsAdmin, h.1, h.2]

/-- C5: `VerifyOwnership user pid` holds exactly when `(user, pid)` is in the ownership ledger
or the role of `user` contains the wildcard `*`. In particular, with the built-in users and
roles and any ledger in which `user3` does not own `P`, once `P` is attributed to `user2` the
check fails for `user3` and passes for `user2` and for the admin `user1`. -/
theorem VerifyOwnership_spec :
    (∀ (i : RBACInterceptor) (user : String) (pid : Nat),
      i.VerifyOwnership user pid = true ↔
        i.owns user pid = true ∨
        ∃ role granted, i.users user = some role ∧ i.roles role = some granted ∧
          granted "*" = true) ∧
    (∀ (ledger : String → Option (Nat → Bool)) (P : Nat),
      ({ NewRBACInterceptor with userToPID := ledger } : RBACInterceptor).owns "user3" P = false →
      let i := ({ NewRBACInterceptor with userToPID := ledger } : RBACInterceptor).AttributeOwnership
        "user2" P
      i.VerifyOwnership "user3" P = false ∧ i.VerifyOwnership "user2" P = true ∧
        i.VerifyOwnership "user1" P = true) := by
  refine ⟨fun i user pid => ?_, fun ledger P h3 => ?_⟩
  · rw [VerifyOwnership_iff, userIsAdmin_iff]
  · intro i
    refine ⟨?_, ?_, ?_⟩
    · cases hv : i.VerifyOwnership "user3" P with
      | false => rfl
      | true =>
        rw [VerifyOwnership_iff, owns_AttributeOwnership, userIsAdmin_AttributeOwnership] at hv
        have hadmin : ({ NewRBACInterceptor with userToPID := ledger } :
            RBACInterceptor).userIsAdmin "user3" = false := rfl
        rcases hv with (h | ⟨h, _⟩) | h
        · rw [h3] at h; exact absurd h (by decide)
        · exact absurd h (by decide)
        · rw [hadmin] at h; exact absurd h (by decide)
    · rw [VerifyOwnership_iff, owns_AttributeOwnership]
      exact Or.inl (Or.inr ⟨rfl, rfl⟩)
    · rw [VerifyOwnership_iff, userIsAdmin_AttributeOwnership]
      exact Or.inr rfl

/-- Witness for C5: from the empty ledger, after job 4 is attributed to `user2`, `user3` is
denied job 4 while `user2` and `user1` are allowed. -/
theorem VerifyOwnership_spec_witness :
    (NewRBACInterceptor.AttributeOwnership "user2" 4).VerifyOwnership "user3" 4 = false ∧
    (NewRBACInterceptor.AttributeOwnership "user2" 4).VerifyOwnership "user2" 4 = true ∧
    (NewRBACInterceptor.AttributeOwnership "user2" 4).VerifyOwnership "user1" 4 = true :=
  VerifyOwnership_spec.2 (fun _ => none) 4 rfl

/-- C6: the ownership ledger is append-only. After `AttributeOwnership user pid` a pair is
owned exactly when it was owned before or is `(user, pid)`: every earlier pair is kept, the new
pair is present and no other pair is added. The users and roles tables are untouched. -/
theorem AttributeOwnership_append_only (i : RBACInterceptor) (user : String) (pid : Nat) :
    (∀ (user' : String) (pid' : Nat),
      (i.AttributeOwnership user pid).owns user' pid' = true ↔
        i.owns user' pid' = true ∨ (user' = user ∧ pid' = pid)) ∧
    (i.AttributeOwnership user pid).users = i.users ∧
    (i.AttributeOwnership user pid).roles = i.roles :=
  ⟨owns_AttributeOwnership i user pid, AttributeOwnership_users i user pid⟩

/-! ## Properties of the job lifecycle -/

theorem cleanUp_exited (p : process) (code : Nat) (now : Time) :
    (p.cleanUp (some (.exited code)) now).status.State =
      if code = 0 then .Completed else .Failed := by
  unfold process.cleanUp ProcessState.ExitCode
  by_cases h : code = 0
  · subst h; simp
  · have : (0 : Int) < (code : Int) := by omega
    simp [this, h]

/-- C7 (the code departs from the claim): for a child terminated by a signal, whose reported
exit code is -1, the waiter `cleanUp` sets the state to `Completed` and records no error,
because it tests `ExitCode() > 0`; the same holds when `Wait` returns no state. For a child
that exits normally the state is `Completed` for code 0 and `Failed` otherwise. -/
theorem cleanUp_signaled_Completed (p : process) (now : Time) :
    (∀ sig : Nat, ProcessState.ExitCode (some (.signaled sig)) = -1 ∧
      (p.cleanUp (some (.signaled sig)) now).status.State = .Completed ∧
      (p.cleanUp (some (.signaled sig)) now).status.err = p.status.err) ∧
    (p.cleanUp none now).status.State = .Completed ∧
    (∀ code : Nat, (p.cleanUp (some (.exited code)) now).status.State =
      if code = 0 then .Completed else .Failed) :=
  ⟨fun _ => ⟨rfl, rfl, rfl⟩, rfl, fun code => cleanUp_exited p code now⟩

theorem wf_newProcess (pid : Nat) (c : ProcessConfig) (now : Time) :
    (newProcess pid c now).wf := by
  simp [process.wf, newProcess]

theorem Start_of_started (p : process) (h : p.started ≠ 0) (now : Time) (env : SpawnEnv) :
    p.Start now env = (p, some ("job " ++ toString p.ID ++ " has been started already")) := by
  simp [process.Start, h]

theorem execute_fields (p : process) (env : SpawnEnv) :
    (p.execute env).1.status = p.status ∧ (p.execute env).1.started = p.started ∧
      (p.execute env).1.waiting = p.waiting ∧ (p.execute env).1.done = p.done ∧
      (p.execute env).1.ID = p.ID ∧ (p.execute env).1.signals = p.signals := by
  unfold process.execute
  cases env.lookPath <;> simp only [and_self]
  cases env.createTemp <;> simp only [and_self]
  cases env.cmdStart <;> simp only [and_self]

theorem Start_fresh (p : process) (h : p.started = 0) (now : Time) (env : SpawnEnv) :
    let q := (p.Start now env).1
    q.started = 1 ∧ q.waiting = (p.waiting || (p.Start now env).2.isNone) ∧ q.done = p.done ∧
      q.status.TerminatedAt = p.status.TerminatedAt ∧
      (((p.Start now env).2.isSome ∧ q.status.State = .Failed ∧ q.execCmd = none) ∨
        ((p.Start now env).2 = none ∧ q.status.State = .Running ∧ q.execCmd ≠ none ∧
          q.waiting = true)) := by
  have hf := execute_fields
    { p with started := 1, status := { p.status with StartedAt := now } } env
  simp only [process.Start, h, ne_eq, not_true_eq_false, if_false]
  rcases hx : process.execute
    { p with started := 1, status := { p.status with StartedAt := now } } env with ⟨q, r⟩
  rw [hx] at hf
  obtain ⟨h1, h2, h3, h4, -, -⟩ := hf
  simp only at h1 h2 h3 h4
  cases r <;> simp [h1, h2, h3, h4]

theorem wf_signals (p : process) (sigs : List Signal) :
    ({ p with signals := sigs } : process).wf ↔ p.wf := Iff.rfl

theorem waiting_Running (p : process) (h : p.wf) (hw : p.waiting = true) :
    p.status.State = .Running := by
  unfold process.wf at h
  cases hs : p.status.State <;> rw [hs] at h <;> simp_all

theorem cleanUp_terminal (p : process) (state : ProcessState) (now : Time) :
    (p.cleanUp state now).status.State.terminal = true := by
  unfold process.cleanUp
  by_cases h : ProcessState.ExitCode state > 0 <;> simp [h, State.terminal]

theorem wf_cleanUp (p : process) (h : p.wf) (hw : p.waiting = true) (state : ProcessState)
    (now : Time) : (p.cleanUp state now).wf := by
  have hr := waiting_Running p h hw
  unfold process.wf at h
  rw [hr] at h
  unfold process.wf process.cleanUp
  by_cases hc : ProcessState.ExitCode state > 0 <;> simp [hc, h.1]

theorem stopLoop_cases (sched : Nat → Round) (n : Nat) :
    ∀ (c : Nat) (p : process), ∃ sigs : List Signal,
      process.stopLoop sched n c p = { p with signals := sigs } ∨
      (p.waiting = true ∧ ∃ state now,
        process.stopLoop sched n c p = { p.cleanUp state now with signals := sigs }) := by
  induction n with
  | zero => intro c p; exact ⟨p.signals, Or.inl rfl⟩
  | succ n ih =>
    intro c p
    unfold process.stopLoop
    cases (sched c).reap with
    | none =>
      by_cases hd : (p.done && !(sched c).tick) = true
      · exact ⟨p.signals, Or.inl (by simp only [process.reaped]; rw [if_pos hd])⟩
      · obtain ⟨sigs, h | ⟨hw, state, now, h⟩⟩ :=
          ih (c + 1) { p with signals := p.signals ++ [.SIGKILL] }
        · exact ⟨sigs, Or.inl (by simp only [process.reaped]; rw [if_neg hd]; exact h)⟩
        · exact ⟨sigs, Or.inr ⟨hw, state, now,
            by simp only [process.reaped]; rw [if_neg hd]; exact h⟩⟩
    | some r =>
      obtain ⟨state, now⟩ := r
      by_cases hw : p.waiting = true
      · have hre : p.reaped (some (state, now)) = p.cleanUp state now := by
          simp only [process.reaped]; rw [if_pos hw]
        simp only [hre]
        by_cases hd : ((p.cleanUp state now).done && !(sched c).tick) = true
        · exact ⟨(p.cleanUp state now).signals, Or.inr ⟨hw, state, now, by rw [if_pos hd]⟩⟩
        · obtain ⟨sigs, h | ⟨hw', _⟩⟩ :=
            ih (c + 1) { p.cleanUp state now with
              signals := (p.cleanUp state now).signals ++ [.SIGKILL] }
          · exact ⟨sigs, Or.inr ⟨hw, state, now, by rw [if_neg hd]; exact h⟩⟩
          · exact absurd hw' (by simp [process.cleanUp])
      · have hre : p.reaped (some (state, now)) = p := by
          simp only [process.reaped]; rw [if_neg hw]
        simp only [hre]
        by_cases hd : (p.done && !(sched c).tick) = true
        · exact ⟨p.signals, Or.inl (by rw [if_pos hd])⟩
        · obtain ⟨sigs, h | ⟨hw', _⟩⟩ :=
            ih (c + 1) { p with signals := p.signals ++ [.SIGKILL] }
          · exact ⟨sigs, Or.inl (by rw [if_neg hd]; exact h)⟩
          · exact absurd hw' hw

theorem Stop_eq (p : process) (sched : Nat → Round) :
    p.Stop sched =
      if p.status.State = .Completed ∨ p.status.State = .Failed then some p
      else if p.execCmd = none then none
      else some (process.stopLoop sched 2 0 { p with signals := p.signals ++ [.SIGTERM] }) := by
  unfold process.Stop
  by_cases ht : p.status.State = .Completed ∨ p.status.State = .Failed
  · rw [if_pos ht, if_pos ht]
  · rw [if_neg ht, if_neg ht]
    cases p with
    | mk config cgroupPath done ID execCmd outputFile started status waiting signals =>
      cases execCmd <;> simp

/-- What one operation can do to a job: either nothing to its status, started flag and
waiter, or the first `Start` of a `Queued` job, or the waiter's `cleanUp` of a `Running` one. -/
theorem step_cases (p q : process) (op : Op) (h : p.step op = some q) :
    (q.status = p.status ∧ q.started = p.started ∧ q.waiting = p.waiting ∧ q.done = p.done ∧
      q.execCmd = p.execCmd) ∨
    (p.started = 0 ∧ ∃ now env, q = (p.Start now env).1) ∨
    (p.waiting = true ∧ ∃ state now sigs, q = { p.cleanUp state now with signals := sigs }) := by
  cases op with
  | start now env =>
    simp only [process.step, Option.some.injEq] at h
    by_cases hs : p.started = 0
    · exact Or.inr (Or.inl ⟨hs, now, env, h.symm⟩)
    · rw [Start_of_started p hs] at h
      subst h
      exact Or.inl ⟨rfl, rfl, rfl, rfl, rfl⟩
  | waiter state now =>
    simp only [process.step, process.reaped, Option.some.injEq] at h
    by_cases hw : p.waiting = true
    · simp only [hw, if_true] at h
      exact Or.inr (Or.inr ⟨hw, state, now, (p.cleanUp state now).signals, h.symm⟩)
    · simp only [hw] at h
      subst h
      exact Or.inl ⟨rfl, rfl, rfl, rfl, rfl⟩
  | stop sched =>
    simp only [process.step] at h
    rw [Stop_eq] at h
    by_cases ht : p.status.State = .Completed ∨ p.status.State = .Failed
    · rw [if_pos ht] at h
      cases h
      exact Or.inl ⟨rfl, rfl, rfl, rfl, rfl⟩
    · rw [if_neg ht] at h
      by_cases hc : p.execCmd = none
      · rw [if_pos hc] at h; exact absurd h (by simp)
      · rw [if_neg hc] at h
        obtain ⟨sigs, h' | ⟨hw, state, now, h'⟩⟩ :=
          stopLoop_cases sched 2 0 { p with signals := p.signals ++ [.SIGTERM] }
        · rw [h'] at h
          cases h
          exact Or.inl ⟨rfl, rfl, rfl, rfl, rfl⟩
        · rw [h'] at h
          cases h
          exact Or.inr (Or.inr ⟨hw, state, now, sigs, rfl⟩)

/-- Every operation keeps the job well formed, moves its state along the state machine, keeps
the started flag raised, and leaves the whole status of a finished job as it is. -/
theorem step_spec (p q : process) (op : Op) (hwf : p.wf) (h : p.step op = some q) :
    q.wf ∧ State.next p.status.State q.status.State = true ∧ (p.started ≠ 0 → q.started ≠ 0) ∧
      (p.status.State.terminal = true → q.status = p.status) := by
  rcases step_cases p q op h with ⟨h1, h2, h3, h4, h5⟩ | ⟨hs, now, env, rfl⟩ |
    ⟨hw, state, now, sigs, rfl⟩
  · refine ⟨?_, ?_, ?_, fun _ => h1⟩
    · unfold process.wf at hwf ⊢
      rw [h1, h2, h3, h4, h5]
      exact hwf
    · rw [h1]; cases p.status.State <;> rfl
    · rw [h2]; exact id
  · have hq : p.status.State = .Queued := by
      unfold process.wf at hwf
      cases hst : p.status.State <;> rw [hst] at hwf <;> simp_all
    have hwf' := hwf
    unfold process.wf at hwf'
    rw [hq] at hwf'
    obtain ⟨h1, h2, h3, h4, h5⟩ := Start_fresh p hs now env
    refine ⟨?_, ?_, ?_, ?_⟩
    · unfold process.wf
      rcases h5 with ⟨ha, hb, hc⟩ | ⟨ha, hb, hc, hd⟩
      · rw [hb]
        refine ⟨by rw [h1]; decide, ?_⟩
        rw [h2, hwf'.2.1]
        cases hx : (p.Start now env).2 <;> simp_all
      · rw [hb]
        exact ⟨by rw [h1]; decide, hd, by rw [h3]; exact hwf'.2.2, hc⟩
    · rw [hq]
      rcases h5 with ⟨_, hb, _⟩ | ⟨_, hb, _⟩ <;> rw [hb] <;> rfl
    · intro _; rw [h1]; decide
    · intro ht; rw [hq] at ht; exact absurd ht (by decide)
  · have hr := waiting_Running p hwf hw
    refine ⟨(wf_signals _ sigs).2 (wf_cleanUp p hwf hw state now), ?_, ?_, ?_⟩
    · rw [hr]
      have := cleanUp_terminal p state now
      show State.next .Running (p.cleanUp state now).status.State = true
      cases hx : (p.cleanUp state now).status.State <;> rw [hx] at this <;>
        first | rfl | exact absurd this (by decide)
    · exact id
    · intro ht; rw [hr] at ht; exact absurd ht (by decide)

theorem run_wf (ops : List Op) :
    ∀ p q : process, p.wf → p.run ops = some q → q.wf ∧ (p.started ≠ 0 → q.started ≠ 0) := by
  induction ops with
  | nil =>
    intro p q hwf h
    simp only [process.run, Option.some.injEq] at h
    subst h
    exact ⟨hwf, id⟩
  | cons op ops ih =>
    intro p q hwf h
    unfold process.run at h
    cases hs : p.step op with
    | none => rw [hs] at h; exact absurd h (by simp)
    | some r =>
      rw [hs] at h
      obtain ⟨hr, -, hst, -⟩ := step_spec p r op hwf hs
      obtain ⟨hq, hst'⟩ := ih r q hr h
      exact ⟨hq, fun h0 => hst' (hst h0)⟩

theorem step_terminal (p : process) (hwf : p.wf) (ht : p.status.State.terminal = true)
    (op : Op) : ∃ q, p.step op = some q ∧ q.status = p.status := by
  have hsome : ∃ q, p.step op = some q := by
    cases op with
    | start now env => exact ⟨_, rfl⟩
    | waiter state now => exact ⟨_, rfl⟩
    | stop sched =>
      refine ⟨p, ?_⟩
      simp only [process.step]
      rw [Stop_eq, if_pos]
      cases hs : p.status.State <;> rw [hs] at ht <;> simp_all [State.terminal]
  obtain ⟨q, hq⟩ := hsome
  exact ⟨q, hq, (step_spec p q op hwf hq).2.2.2 ht⟩

theorem trace_head (p : process) (ops : List Op) :
    ∃ l, p.trace ops = p.status.State :: l := by
  cases ops with
  | nil => exact ⟨[], rfl⟩
  | cons op ops =>
    unfold process.trace
    cases p.step op <;> exact ⟨_, rfl⟩

theorem trace_destutter (ops : List Op) :
    ∀ p : process, p.wf →
      match p.status.State with
      | .Queued =>
        List.destutter (· ≠ ·) (p.trace ops) ∈
          [[State.Queued], [.Queued, .Running], [.Queued, .Running, .Completed],
            [.Queued, .Running, .Failed], [.Queued, .Failed]]
      | .Running =>
        List.destutter (· ≠ ·) (p.trace ops) ∈
          [[State.Running], [.Running, .Completed], [.Running, .Failed]]
      | .Failed => List.destutter (· ≠ ·) (p.trace ops) = [.Failed]
      | .Completed => List.destutter (· ≠ ·) (p.trace ops) = [.Completed] := by
  induction ops with
  | nil =>
    intro p _
    cases hs : p.status.State <;> simp [process.trace, hs]
  | cons op ops ih =>
    intro p hwf
    unfold process.trace
    cases hst : p.step op with
    | none => cases hs : p.status.State <;> simp
    | some q =>
      obtain ⟨hq, hnext, -, -⟩ := step_spec p q op hwf hst
      have hI := ih q hq
      obtain ⟨l, hl⟩ := trace_head q ops
      rw [hl] at hI
      simp only [hl, List.destutter_cons_cons]
      rw [List.destutter_cons'] at hI
      cases hs : p.status.State <;> cases hs' : q.status.State <;>
        rw [hs, hs'] at hnext <;> rw [hs'] at hI <;>
        first
          | exact absurd hnext (by decide)
          | (simp only [ne_eq, not_true_eq_false, if_false]; exact hI)
          | (simp only [ne_eq, reduceCtorEq, not_false_eq_true, if_true]
             simp only [List.mem_cons, List.mem_singleton, List.not_mem_nil, or_false] at hI ⊢
             simp only [List.cons.injEq, true_and, reduceCtorEq, false_and, false_or, or_false]
             rcases hI with h | h | h <;> simp [h])
          | (simp only [ne_eq, reduceCtorEq, not_false_eq_true, if_true]
             simp [hI])

/-- C8: along every sequence of `Start`, waiter and `Stop` steps on a new job, the states
taken, repetitions dropped, form a prefix of `Queued, Running, Completed`, of
`Queued, Running, Failed` or of `Queued, Failed`; and once a job reached by such a sequence is
`Completed` or `Failed`, every further operation, `Stop` included, returns and leaves its whole
status, state and termination time included, as it was. -/
theorem state_sequence (pid : Nat) (cfg : ProcessConfig) (t0 : Time) (ops : List Op) :
    (List.destutter (· ≠ ·) ((newProcess pid cfg t0).trace ops) <+:
        [.Queued, .Running, .Completed] ∨
      List.destutter (· ≠ ·) ((newProcess pid cfg t0).trace ops) <+:
        [.Queued, .Running, .Failed] ∨
      List.destutter (· ≠ ·) ((newProcess pid cfg t0).trace ops) <+: [.Queued, .Failed]) ∧
    (∀ p : process, (newProcess pid cfg t0).run ops = some p →
      p.status.State.terminal = true →
      ∀ op : Op, ∃ q, p.step op = some q ∧ q.status.State = p.status.State ∧
        q.status.TerminatedAt = p.status.TerminatedAt ∧ q.status = p.status) := by
  constructor
  · have h := trace_destutter ops (newProcess pid cfg t0) (wf_newProcess pid cfg t0)
    have hq : (newProcess pid cfg t0).status.State = .Queued := rfl
    rw [hq] at h
    simp only [List.mem_cons, List.mem_singleton, List.not_mem_nil, or_false] at h
    rcases h with h | h | h | h | h <;> rw [h] <;> decide
  · intro p hrun ht op
    have hwf := (run_wf ops _ p (wf_newProcess pid cfg t0) hrun).1
    obtain ⟨q, hq, hst⟩ := step_terminal p hwf ht op
    exact ⟨q, hq, by rw [hst], by rw [hst], hst⟩

/-- Witness for C8: a job is started, its child exits with code 0 at time 5, and `Stop` is
called afterwards: the states taken are `Queued, Running, Completed`, and the `Stop` on the
completed job leaves its status untouched. -/
theorem state_sequence_witness :
    (newProcess 1 sleepConfig 0).trace
        [.start 1 spawnOk, .waiter (some (.exited 0)) 5, .stop neverReaped] =
      [.Queued, .Running, .Completed, .Completed] ∧
    (List.destutter (· ≠ ·) ((newProcess 1 sleepConfig 0).trace
        [.start 1 spawnOk, .waiter (some (.exited 0)) 5, .stop neverReaped]) <+:
        [.Queued, .Running, .Completed] ∨
      List.destutter (· ≠ ·) ((newProcess 1 sleepConfig 0).trace
        [.start 1 spawnOk, .waiter (some (.exited 0)) 5, .stop neverReaped]) <+:
        [.Queued, .Running, .Failed] ∨
      List.destutter (· ≠ ·) ((newProcess 1 sleepConfig 0).trace
        [.start 1 spawnOk, .waiter (some (.exited 0)) 5, .stop neverReaped]) <+:
        [.Queued, .Failed]) ∧
    ∃ q, (((newProcess 1 sleepConfig 0).Start 1 spawnOk).1.cleanUp (some (.exited 0)) 5).step
        (.stop neverReaped) = some q ∧
      q.status.State = .Completed ∧ q.status.TerminatedAt = 5 :=
  ⟨rfl,
    (state_sequence 1 sleepConfig 0
      [.start 1 spawnOk, .waiter (some (.exited 0)) 5, .stop neverReaped]).1,
    by
      obtain ⟨q, h1, h2, h3, -⟩ :=
        (state_sequence 1 sleepConfig 0 [.start 1 spawnOk, .waiter (some (.exited 0)) 5]).2
          (((newProcess 1 sleepConfig 0).Start 1 spawnOk).1.cleanUp (some (.exited 0)) 5)
          rfl rfl (.stop neverReaped)
      exact ⟨q, h1, h2, h3⟩⟩

/-- C9: on a job on which `Start` has been called, whether that call succeeded or failed and
whatever waiter and `Stop` steps followed, a further call of `Start` returns the
already-started error and leaves the job, its status (state, PID, start and termination times)
and its started flag included, exactly as it was. -/
theorem Start_second_call (pid : Nat) (cfg : ProcessConfig) (t0 now : Time) (env : SpawnEnv)
    (ops : List Op) (p : process)
    (h : ((newProcess pid cfg t0).Start now env).1.run ops = some p)
    (now' : Time) (env' : SpawnEnv) :
    p.Start now' env' = (p, some ("job " ++ toString p.ID ++ " has been started already")) ∧
      (p.Start now' env').1.status = p.status ∧ (p.Start now' env').1.started = p.started ∧
      p.started = 1 := by
  have hwf0 : ((newProcess pid cfg t0).Start now env).1.wf :=
    (step_spec _ _ (.start now env) (wf_newProcess pid cfg t0) rfl).1
  have h1 : ((newProcess pid cfg t0).Start now env).1.started = 1 :=
    (Start_fresh (newProcess pid cfg t0) rfl now env).1
  have hstarted : ∀ (ops : List Op) (a b : process), a.wf → a.started = 1 →
      a.run ops = some b → b.started = 1 := by
    intro ops
    induction ops with
    | nil =>
      intro a b _ ha hrun
      simp only [process.run, Option.some.injEq] at hrun
      rw [← hrun]; exact ha
    | cons op ops ih =>
      intro a b hwf ha hrun
      unfold process.run at hrun
      cases hs : a.step op with
      | none => rw [hs] at hrun; exact absurd hrun (by simp)
      | some r =>
        rw [hs] at hrun
        refine ih r b (step_spec a r op hwf hs).1 ?_ hrun
        rcases step_cases a r op hs with ⟨_, h2, _⟩ | ⟨h0, _⟩ | ⟨_, state, t, sigs, rfl⟩
        · rw [h2]; exact ha
        · rw [ha] at h0; exact absurd h0 (by decide)
        · exact ha
  have hp : p.started = 1 := hstarted ops _ p hwf0 h1 h
  have hne : p.started ≠ 0 := by rw [hp]; decide
  have hs := Start_of_started p hne now' env'
  exact ⟨hs, by rw [hs], by rw [hs], hp⟩

/-- Witness for C9: a job whose first `Start` failed (command not found) and on which `Stop`
was then called; the second `Start`, which would now succeed in spawning, is refused and the
state stays `Failed`. -/
theorem Start_second_call_witness :
    (((newProcess 3 sleepConfig 0).Start 1 spawnNotFound).1.Start 9 spawnOk).2.isSome = true ∧
    (((newProcess 3 sleepConfig 0).Start 1 spawnNotFound).1.Start 9 spawnOk).1.status.State =
      .Failed ∧
    (((newProcess 3 sleepConfig 0).Start 1 spawnNotFound).1.Start 9 spawnOk).1.status.StartedAt =
      1 := by
  have h := Start_second_call 3 sleepConfig 0 1 spawnNotFound [.stop neverReaped]
    ((newProcess 3 sleepConfig 0).Start 1 spawnNotFound).1 rfl 9 spawnOk
  refine ⟨by rw [h.1]; rfl, by rw [h.2.1]; rfl, by rw [h.2.1]; rfl⟩

theorem stopLoop_terminal (sched : Nat → Round) (n c : Nat) (p : process)
    (h : p.status.State.terminal = true) :
    (process.stopLoop sched n c p).status.State.terminal = true := by
  obtain ⟨sigs, h' | ⟨_, state, now, h'⟩⟩ := stopLoop_cases sched n c p
  · rw [h']; exact h
  · rw [h']; exact cleanUp_terminal p state now

theorem stopLoop_reaped_first (sched : Nat → Round) (n c : Nat) (p : process)
    (hw : p.waiting = true) (state : ProcessState) (now : Time)
    (hr : (sched c).reap = some (state, now)) :
    (process.stopLoop sched (n + 1) c p).status.State.terminal = true := by
  unfold process.stopLoop
  have hre : p.reaped (sched c).reap = p.cleanUp state now := by
    rw [hr]; simp only [process.reaped]; rw [if_pos hw]
  simp only [hre]
  split
  · exact cleanUp_terminal p state now
  · exact stopLoop_terminal sched n (c + 1) _ (cleanUp_terminal p state now)

theorem stopLoop_not_reaped (sched : Nat → Round) (n c : Nat) (p : process)
    (hd : p.done = false) (hr : (sched c).reap = none) :
    process.stopLoop sched (n + 1) c p =
      process.stopLoop sched n (c + 1) { p with signals := p.signals ++ [.SIGKILL] } := by
  conv_lhs => unfold process.stopLoop
  have hre : p.reaped (sched c).reap = p := by rw [hr]; rfl
  simp only [hre, hd, Bool.false_and, Bool.false_eq_true, if_false]

/-- C10 (as amended): for every job reached from a new job by a sequence of operations and on
which `Start` has been called, `Stop` returns, and when it returns the state is `Completed` or
`Failed`, or else the waiter had reaped the child neither before the first nor before the
second `select`: then `Stop` has sent `SIGTERM` and two `SIGKILL`s and the state is still
`Running`. Whenever the child is reaped before one of the two `select`s the state is final. -/
theorem Stop_terminal_or_two_kills (pid : Nat) (cfg : ProcessConfig) (t0 : Time)
    (ops : List Op) (p : process) (h : (newProcess pid cfg t0).run ops = some p)
    (hs : p.started ≠ 0) (sched : Nat → Round) :
    ∃ q, p.Stop sched = some q ∧
      (q.status.State.terminal = true ∨
        ((sched 0).reap = none ∧ (sched 1).reap = none ∧ q.status.State = .Running ∧
          q.signals = p.signals ++ [.SIGTERM, .SIGKILL, .SIGKILL])) ∧
      ((sched 0).reap ≠ none ∨ (sched 1).reap ≠ none → q.status.State.terminal = true) := by
  have hwf := (run_wf ops _ p (wf_newProcess pid cfg t0) h).1
  rw [Stop_eq]
  by_cases ht : p.status.State = .Completed ∨ p.status.State = .Failed
  · rw [if_pos ht]
    have hterm : p.status.State.terminal = true := by
      rcases ht with ht | ht <;> rw [ht] <;> rfl
    exact ⟨p, rfl, Or.inl hterm, fun _ => hterm⟩
  · rw [if_neg ht]
    have hrun : p.status.State = .Running := by
      unfold process.wf at hwf
      cases hst : p.status.State <;> rw [hst] at hwf <;> simp_all
    have hwf' := hwf
    unfold process.wf at hwf'
    rw [hrun] at hwf'
    obtain ⟨-, hw, hd, hc⟩ := hwf'
    rw [if_neg hc]
    refine ⟨_, rfl, ?_⟩
    cases h0 : (sched 0).reap with
    | some r =>
      obtain ⟨state, now⟩ := r
      have hterm := stopLoop_reaped_first sched 1 0
        { p with signals := p.signals ++ [.SIGTERM] } hw state now h0
      exact ⟨Or.inl hterm, fun _ => hterm⟩
    | none =>
      have e0 : process.stopLoop sched 2 0 { p with signals := p.signals ++ [.SIGTERM] } =
          process.stopLoop sched 1 1
            { p with signals := p.signals ++ [.SIGTERM] ++ [.SIGKILL] } :=
        stopLoop_not_reaped sched 1 0 { p with signals := p.signals ++ [.SIGTERM] } hd h0
      rw [e0]
      cases h1 : (sched 1).reap with
      | some r =>
        obtain ⟨state, now⟩ := r
        have hterm := stopLoop_reaped_first sched 0 1
          { p with signals := p.signals ++ [.SIGTERM] ++ [.SIGKILL] } hw state now h1
        exact ⟨Or.inl hterm, fun _ => hterm⟩
      | none =>
        have e1 : process.stopLoop sched 1 1
              { p with signals := p.signals ++ [.SIGTERM] ++ [.SIGKILL] } =
            process.stopLoop sched 0 2
              { p with signals := p.signals ++ [.SIGTERM] ++ [.SIGKILL] ++ [.SIGKILL] } :=
          stopLoop_not_reaped sched 0 1
            { p with signals := p.signals ++ [.SIGTERM] ++ [.SIGKILL] } hd h1
        rw [e1]
        refine ⟨Or.inr ⟨rfl, rfl, hrun, ?_⟩, fun hne => ?_⟩
        · simp [process.stopLoop]
        · rcases hne with hne | hne <;> exact absurd rfl hne

/-- Witness for C10 as amended: a started job whose child ignores `SIGTERM` and is reaped, killed
by signal 9, after the first `SIGKILL`; `Stop` returns with a final state. -/
theorem Stop_terminal_or_two_kills_witness :
    ∃ q, ((newProcess 2 sleepConfig 0).Start 1 spawnOk).1.Stop reapedAfterKill = some q ∧
      q.status.State.terminal = true ∧ q.signals = [.SIGTERM, .SIGKILL] := by
  obtain ⟨q, h1, -, h3⟩ := Stop_terminal_or_two_kills 2 sleepConfig 0 [.start 1 spawnOk]
    ((newProcess 2 sleepConfig 0).Start 1 spawnOk).1 rfl (by decide) reapedAfterKill
  refine ⟨q, h1, h3 (Or.inr (by decide)), ?_⟩
  have h2 : ((newProcess 2 sleepConfig 0).Start 1 spawnOk).1.Stop reapedAfterKill =
      some ({ ((newProcess 2 sleepConfig 0).Start 1 spawnOk).1.cleanUp (some (.signaled 9)) 50
        with signals := [.SIGTERM, .SIGKILL] }) := rfl
  rw [h2] at h1
  cases h1
  rfl

/-- C10 (counterexample to the claim as stated): a started job whose child is not reaped
while `Stop` runs. `Stop` sends `SIGTERM`, sees the ticker fire twice, sends `SIGKILL` twice and
returns with the job's state still `Running`. -/
theorem Stop_returns_while_Running :
    (((newProcess 2 sleepConfig 0).Start 1 spawnOk).1.Stop neverReaped).map
      (fun q => (q.status.State, q.signals, q.started)) =
      some (.Running, [.SIGTERM, .SIGKILL, .SIGKILL], 1) := by
  rfl

/-! ## Properties of `Start` and of the executor -/

/-- C11: on a newly created job, `Start` returns the error of the first of `exec.LookPath`,
`os.CreateTemp` and `cmd.Start` that fails and leaves the state `Failed`; when all succeed it
returns no error and leaves the state `Running`, with the child's OS PID and the start time
recorded and the waiter launched. -/
theorem Start_new_job (pid : Nat) (cfg : ProcessConfig) (t0 now : Time) (env : SpawnEnv) :
    (∀ e, env.lookPath = .error e →
      ((newProcess pid cfg t0).Start now env).2 = some e ∧
      ((newProcess pid cfg t0).Start now env).1.status.State = .Failed) ∧
    (∀ path e, env.lookPath = .ok path → env.createTemp = .error e →
      ((newProcess pid cfg t0).Start now env).2 = some e ∧
      ((newProcess pid cfg t0).Start now env).1.status.State = .Failed) ∧
    (∀ path file e, env.lookPath = .ok path → env.createTemp = .ok file →
      env.cmdStart = .error e →
      ((newProcess pid cfg t0).Start now env).2 = some e ∧
      ((newProcess pid cfg t0).Start now env).1.status.State = .Failed) ∧
    (∀ path file ospid, env.lookPath = .ok path → env.createTemp = .ok file →
      env.cmdStart = .ok ospid →
      ((newProcess pid cfg t0).Start now env).2 = none ∧
      ((newProcess pid cfg t0).Start now env).1.status.State = .Running ∧
      ((newProcess pid cfg t0).Start now env).1.status.Pid = ospid ∧
      ((newProcess pid cfg t0).Start now env).1.status.StartedAt = now ∧
      ((newProcess pid cfg t0).Start now env).1.waiting = true) := by
  refine ⟨?_, ?_, ?_, ?_⟩
  · intro e h
    simp [process.Start, process.execute, newProcess, h]
  · intro path e h1 h2
    simp [process.Start, process.execute, newProcess, h1, h2]
  · intro path file e h1 h2 h3
    simp [process.Start, process.execute, newProcess, h1, h2, h3]
  · intro path file ospid h1 h2 h3
    simp [process.Start, process.execute, newProcess, h1, h2, h3]

/-- Witness for C11: as in `TestJobExecution`, a job whose command is not found fails with the
lookup error, and a job whose spawn succeeds is `Running` with OS PID 4242. -/
theorem Start_new_job_witness :
    (((newProcess 2 sleepConfig 0).Start 1 spawnNotFound).2 =
        some "executable file not found in $PATH" ∧
      ((newProcess 2 sleepConfig 0).Start 1 spawnNotFound).1.status.State = .Failed) ∧
    (((newProcess 0 sleepConfig 0).Start 1 spawnOk).2 = none ∧
      ((newProcess 0 sleepConfig 0).Start 1 spawnOk).1.status.State = .Running ∧
      ((newProcess 0 sleepConfig 0).Start 1 spawnOk).1.status.Pid = 4242 ∧
      ((newProcess 0 sleepConfig 0).Start 1 spawnOk).1.status.StartedAt = 1 ∧
      ((newProcess 0 sleepConfig 0).Start 1 spawnOk).1.waiting = true) :=
  ⟨(Start_new_job 2 sleepConfig 0 1 spawnNotFound).1 _ rfl,
    (Start_new_job 0 sleepConfig 0 1 spawnOk).2.2.2 "/usr/bin/bash" "/tmp/123" 4242 rfl rfl rfl⟩

theorem lookup_filter_ne (m : List (Nat × process)) (k k' : Nat) (h : k' ≠ k) :
    (m.filter (fun e => e.1 ≠ k)).lookup k' = m.lookup k' := by
  induction m with
  | nil => rfl
  | cons e m ih =>
    obtain ⟨a, b⟩ := e
    simp only [ne_eq, decide_not] at ih ⊢
    by_cases ha : a = k
    · subst ha
      have hb : (k' == a) = false := by simpa using h
      simp [List.filter_cons, List.lookup_cons, hb, ih]
    · by_cases hk : k' = a
      · subst hk
        simp [List.filter_cons, ha]
      · have hb' : (k' == a) = false := by simpa using hk
        simp [List.filter_cons, ha, List.lookup_cons, hb', ih]

theorem lookup_mapInsert (k : Nat) (v : process) (m : List (Nat × process)) (k' : Nat) :
    (mapInsert k v m).lookup k' = if k' = k then some v else m.lookup k' := by
  unfold mapInsert
  by_cases h : k' = k
  · subst h; simp
  · have hb : (k' == k) = false := by simpa using h
    rw [List.lookup_cons, hb, if_neg h]
    exact lookup_filter_ne m k k' h

theorem Start_ID (p : process) (now : Time) (env : SpawnEnv) : (p.Start now env).1.ID = p.ID := by
  by_cases h : p.started = 0
  · have hf := execute_fields
      { p with started := 1, status := { p.status with StartedAt := now } } env
    simp only [process.Start, h, ne_eq, not_true_eq_false, if_false]
    rcases hx : process.execute
      { p with started := 1, status := { p.status with StartedAt := now } } env with ⟨q, r⟩
    rw [hx] at hf
    obtain ⟨-, -, -, -, hid, -⟩ := hf
    simp only at hid
    cases r <;> simp [hid]
  · rw [Start_of_started p h]

theorem Get_congr (s t : Executor) (ID : Nat) (h : t.jobs.lookup ID = s.jobs.lookup ID) :
    t.Get ID = s.Get ID := by
  unfold Executor.Get
  rw [h]

/-- C13: `Executor.Start` returns the error of the job's `Start`. When that call fails the
result is `(0, error)` and the job map is unchanged, so that `Get` and `List` answer as before
for every ID. When it succeeds the returned ID is the job's ID, the job is in the map under
that ID, `List` contains it, `Get` finds it, and the entry of every other ID, with the answer
of `Get` for it, is unchanged. -/
theorem Executor_Start_registers (s : Executor) (c : ProcessConfig) (created now : Time)
    (env : SpawnEnv) :
    (s.Start c created now env).2.2 =
      ((newProcess (toUint64 (wrapInt64 (s.nextID + 1)))
        { c with deviceMajor := s.deviceMaj, deviceMinor := s.deviceMin, cgroupPrefix := s.id }
        created).Start now env).2 ∧
    ((s.Start c created now env).2.2 ≠ none →
      (s.Start c created now env).2.1 = 0 ∧
      (s.Start c created now env).1.jobs = s.jobs ∧
      (∀ ID, (s.Start c created now env).1.Get ID = s.Get ID) ∧
      (s.Start c created now env).1.List = s.List) ∧
    ((s.Start c created now env).2.2 = none →
      (s.Start c created now env).2.1 = toUint64 (wrapInt64 (s.nextID + 1)) ∧
      (∃ p : process, (s.Start c created now env).1.jobs.lookup (s.Start c created now env).2.1 =
          some p ∧ p.ID = (s.Start c created now env).2.1 ∧ p.status.State = .Running) ∧
      (s.Start c created now env).2.1 ∈ (s.Start c created now env).1.List ∧
      (∃ info : ProcInfo,
        (s.Start c created now env).1.Get (s.Start c created now env).2.1 = some (some info) ∧
        info.ID = (s.Start c created now env).2.1) ∧
      (∀ ID, ID ≠ (s.Start c created now env).2.1 →
        (s.Start c created now env).1.jobs.lookup ID = s.jobs.lookup ID ∧
        (s.Start c created now env).1.Get ID = s.Get ID)) := by
  have hID := Start_ID (newProcess (toUint64 (wrapInt64 (s.nextID + 1)))
    { c with deviceMajor := s.deviceMaj, deviceMinor := s.deviceMin, cgroupPrefix := s.id }
    created) now env
  have hfresh := Start_fresh (newProcess (toUint64 (wrapInt64 (s.nextID + 1)))
    { c with deviceMajor := s.deviceMaj, deviceMinor := s.deviceMin, cgroupPrefix := s.id }
    created) rfl now env
  simp only [Executor.Start]
  rcases hjs : (newProcess (toUint64 (wrapInt64 (s.nextID + 1)))
    { c with deviceMajor := s.deviceMaj, deviceMinor := s.deviceMin, cgroupPrefix := s.id }
    created).Start now env with ⟨q, _ | e⟩
  · rw [hjs] at hID hfresh
    have hq : q.ID = toUint64 (wrapInt64 (s.nextID + 1)) := hID
    obtain ⟨-, -, -, -, h5⟩ := hfresh
    simp only at h5
    rcases h5 with ⟨ha, -⟩ | ⟨-, hrun, hcmd, -⟩
    · exact absurd ha (by simp)
    · dsimp only
      refine ⟨rfl, fun h => absurd rfl h, fun _ => ⟨hq, ⟨q, ?_, rfl, hrun⟩, ?_, ?_, ?_⟩⟩
      · simp [lookup_mapInsert]
      · simp [Executor.List, mapInsert]
      · obtain ⟨cmd, hc⟩ := Option.ne_none_iff_exists'.mp hcmd
        simp only [Executor.Get, lookup_mapInsert, hc, process.Status, if_true]
        exact ⟨_, rfl, rfl⟩
      · intro ID hne
        have hl : (mapInsert q.ID q s.jobs).lookup ID = s.jobs.lookup ID := by
          rw [lookup_mapInsert, if_neg hne]
        exact ⟨hl, Get_congr s _ ID hl⟩
  · dsimp only
    exact ⟨rfl, fun _ => ⟨rfl, rfl, fun _ => rfl, rfl⟩, fun h => absurd h (by simp)⟩

/-- Witness for C13: on a new executor a call whose command is not found returns `(0, error)`
and registers nothing, and a following successful call returns ID 1 and registers job 1. -/
theorem Executor_Start_registers_witness :
    (freshExecutor.Start sleepConfig 0 1 spawnNotFound).2.1 = 0 ∧
    (freshExecutor.Start sleepConfig 0 1 spawnNotFound).1.List = [] ∧
    ((freshExecutor.Start sleepConfig 0 1 spawnNotFound).1.Start sleepConfig 2 3 spawnOk).2.1 =
      1 ∧
    ((freshExecutor.Start sleepConfig 0 1 spawnNotFound).1.Start sleepConfig 2 3 spawnOk).1.List =
      [1] := by
  have h1 := (Executor_Start_registers freshExecutor sleepConfig 0 1 spawnNotFound).2.1
    (by decide)
  have h2 := (Executor_Start_registers (freshExecutor.Start sleepConfig 0 1 spawnNotFound).1
    sleepConfig 2 3 spawnOk).2.2 rfl
  exact ⟨h1.1, h1.2.2.2, by rw [h2.1]; rfl, rfl⟩

theorem toUint64_wrapInt64 (x : Int) :
    toUint64 (wrapInt64 x) = (x % 18446744073709551616).toNat := by
  unfold toUint64 wrapInt64
  congr 1
  omega

theorem toUint64_lt (x : Int) : toUint64 x < 18446744073709551616 := by
  unfold toUint64
  omega

theorem nextID_Start (s : Executor) (c : ProcessConfig) (created now : Time) (env : SpawnEnv) :
    (s.Start c created now env).1.nextID = wrapInt64 (s.nextID + 1) := by
  simp only [Executor.Start]
  rcases (newProcess (toUint64 (wrapInt64 (s.nextID + 1)))
    { c with deviceMajor := s.deviceMaj, deviceMinor := s.deviceMin, cgroupPrefix := s.id }
    created).Start now env with ⟨q, _ | e⟩ <;> rfl

theorem toUint64_succ (x : Int) :
    toUint64 (wrapInt64 (wrapInt64 x + 1)) = (toUint64 (wrapInt64 x) + 1) % 18446744073709551616 := by
  unfold toUint64 wrapInt64
  omega

theorem successIDs_cons_Start (s : Executor) (c : ProcessConfig) (created now : Time)
    (env : SpawnEnv) (rest : List (Nat × Option String)) :
    successIDs ((s.Start c created now env).2 :: rest) = successIDs rest ∨
      successIDs ((s.Start c created now env).2 :: rest) =
        toUint64 (wrapInt64 (s.nextID + 1)) :: successIDs rest := by
  have h := Executor_Start_registers s c created now env
  cases he : (s.Start c created now env).2.2 with
  | none =>
    right
    have hid := (h.2.2 he).1
    simp [successIDs, List.filterMap_cons, he, hid]
  | some e =>
    left
    simp [successIDs, List.filterMap_cons, he]

theorem successIDs_increasing_from (calls : List StartCall) :
    ∀ s : Executor,
      toUint64 (wrapInt64 (s.nextID + 1)) + calls.length ≤ 18446744073709551616 →
      List.Pairwise (· < ·) (successIDs (runStarts s calls).2) ∧
        ∀ i ∈ successIDs (runStarts s calls).2, toUint64 (wrapInt64 (s.nextID + 1)) ≤ i := by
  induction calls with
  | nil =>
    intro s _
    simp [runStarts, successIDs]
  | cons call calls ih =>
    intro s hlen
    simp only [runStarts]
    have hnext := nextID_Start s call.config call.created call.now call.env
    have hsucc := toUint64_succ (s.nextID + 1)
    have hlt := toUint64_lt (wrapInt64 (s.nextID + 1))
    have hIH : List.Pairwise (· < ·)
          (successIDs (runStarts (s.Start call.config call.created call.now call.env).1 calls).2) ∧
        ∀ i ∈ successIDs
            (runStarts (s.Start call.config call.created call.now call.env).1 calls).2,
          calls ≠ [] → toUint64 (wrapInt64 (s.nextID + 1)) + 1 ≤ i := by
      cases calls with
      | nil => simp [runStarts, successIDs]
      | cons call' calls' =>
        simp only [List.length_cons] at hlen
        have hno : toUint64 (wrapInt64 (s.nextID + 1)) + 1 < 18446744073709551616 := by omega
        have hstep : toUint64 (wrapInt64
            ((s.Start call.config call.created call.now call.env).1.nextID + 1)) =
            toUint64 (wrapInt64 (s.nextID + 1)) + 1 := by
          rw [hnext, hsucc]; omega
        have h := ih (s.Start call.config call.created call.now call.env).1
          (by rw [hstep]; simp only [List.length_cons]; omega)
        rw [hstep] at h
        exact ⟨h.1, fun i hi _ => h.2 i hi⟩
    rcases successIDs_cons_Start s call.config call.created call.now call.env
      (runStarts (s.Start call.config call.created call.now call.env).1 calls).2 with h | h
    · rw [h]
      refine ⟨hIH.1, fun i hi => ?_⟩
      have hne : calls ≠ [] := by
        rintro rfl
        simp [runStarts, successIDs] at hi
      have := hIH.2 i hi hne
      omega
    · rw [h]
      refine ⟨List.pairwise_cons.2 ⟨fun i hi => ?_, hIH.1⟩, fun i hi => ?_⟩
      · have hne : calls ≠ [] := by
          rintro rfl
          simp [runStarts, successIDs] at hi
        have := hIH.2 i hi hne
        omega
      · rcases List.mem_cons.1 hi with rfl | hi
        · exact le_refl _
        · have hne : calls ≠ [] := by
            rintro rfl
            simp [runStarts, successIDs] at hi
          have := hIH.2 i hi hne
          omega

theorem Start_callOk (s : Executor) :
    (s.Start callOk.config callOk.created callOk.now callOk.env).2.2 = none := by
  rw [(Executor_Start_registers s callOk.config callOk.created callOk.now callOk.env).1]
  exact ((Start_new_job _ _ _ _ _).2.2.2 "/usr/bin/bash" "/tmp/123" 4242 rfl rfl rfl).1

theorem successIDs_replicate_callOk (n : Nat) :
    ∀ s : Executor, successIDs (runStarts s (List.replicate n callOk)).2 =
      (List.range n).map
        (fun i => (toUint64 (wrapInt64 (s.nextID + 1)) + i) % 18446744073709551616) := by
  induction n with
  | zero => intro s; rfl
  | succ n ih =>
    intro s
    rw [List.replicate_succ, List.range_succ_eq_map]
    simp only [runStarts, List.map_cons, List.map_map]
    have hok := Start_callOk s
    have hid := ((Executor_Start_registers s callOk.config callOk.created callOk.now
      callOk.env).2.2 hok).1
    have hnext := nextID_Start s callOk.config callOk.created callOk.now callOk.env
    have hsucc := toUint64_succ (s.nextID + 1)
    have hlt := toUint64_lt (wrapInt64 (s.nextID + 1))
    have hcons : successIDs ((s.Start callOk.config callOk.created callOk.now callOk.env).2 ::
        (runStarts (s.Start callOk.config callOk.created callOk.now callOk.env).1
          (List.replicate n callOk)).2) =
        toUint64 (wrapInt64 (s.nextID + 1)) ::
          successIDs (runStarts (s.Start callOk.config callOk.created callOk.now callOk.env).1
            (List.replicate n callOk)).2 := by
      simp [successIDs, List.filterMap_cons, hok, hid]
    rw [hcons, ih, hnext, hsucc]
    congr 1
    · simp only [Nat.add_zero]
      omega
    · apply List.map_congr_left
      intro i _
      simp only [Function.comp, Nat.succ_eq_add_one]
      omega

theorem successIDs_wrap (n : Nat) (hn : n = 18446744073709551616) :
    (successIDs (runStarts freshExecutor (List.replicate (n + 1) callOk)).2)[0]? = some 0 ∧
    (successIDs (runStarts freshExecutor (List.replicate (n + 1) callOk)).2)[n]? = some 0 ∧
    ¬ List.Pairwise (· < ·)
      (successIDs (runStarts freshExecutor (List.replicate (n + 1) callOk)).2) := by
  have hc : toUint64 (wrapInt64 (freshExecutor.nextID + 1)) = 0 := by decide
  rw [successIDs_replicate_callOk, hc]
  have h0 : ((List.range (n + 1)).map (fun i => (0 + i) % 18446744073709551616))[0]? =
      some 0 := by
    rw [List.getElem?_map, List.getElem?_range (by omega)]
    rfl
  have hn' : ((List.range (n + 1)).map (fun i => (0 + i) % 18446744073709551616))[n]? =
      some 0 := by
    rw [List.getElem?_map, List.getElem?_range (by omega)]
    simp only [Option.map_some', Option.some.injEq]
    omega
  refine ⟨h0, hn', fun h => ?_⟩
  have hlen : ((List.range (n + 1)).map
      (fun i => (0 + i) % 18446744073709551616)).length = n + 1 := by
    rw [List.length_map, List.length_range]
  have hp := List.pairwise_iff_getElem.1 h 0 n (by omega) (by omega) (by omega)
  simp only [List.getElem_map, List.getElem_range] at hp
  omega

/-- C12 (as amended): on a new executor, for every sequence of at most 2^64 calls of
`Executor.Start`, successful or failing in any mix, the IDs returned by the successful calls
are strictly increasing in call order, hence pairwise distinct. -/
theorem Starts_IDs_increasing (maj min : Nat) (uuid : String) (s : Executor)
    (hs : New (.ok (maj, min)) uuid = .ok s) (calls : List StartCall)
    (hlen : calls.length ≤ 18446744073709551616) :
    List.Pairwise (· < ·) (successIDs (runStarts s calls).2) ∧
      (successIDs (runStarts s calls).2).Nodup := by
  have hnext : s.nextID = -1 := by
    simp only [New, Except.ok.injEq] at hs
    rw [← hs]
  have hc : toUint64 (wrapInt64 (s.nextID + 1)) = 0 := by rw [hnext]; decide
  have h := (successIDs_increasing_from calls s (by rw [hc]; omega)).1
  exact ⟨h, h.imp (fun hab => Nat.ne_of_lt hab)⟩

/-- Witness for C12 as amended: on a new executor a successful call, a failing call and a
successful call return the IDs 0 and 2 to the successful ones. -/
theorem Starts_IDs_increasing_witness :
    successIDs (runStarts freshExecutor [callOk, callNotFound, callOk]).2 = [0, 2] ∧
    List.Pairwise (· < ·) (successIDs (runStarts freshExecutor [callOk, callNotFound, callOk]).2) :=
  ⟨by decide,
    (Starts_IDs_increasing 8 1 "0b9d" freshExecutor rfl [callOk, callNotFound, callOk]
      (by decide)).1⟩

/-- C12 (counterexample to the claim as stated): on a new executor, in a sequence of 2^64 + 1
successful calls of `Executor.Start` the first call and the last call both return the ID 0:
the 64-bit counter has wrapped around, and the IDs returned are not strictly increasing. -/
theorem Starts_ID_reused :
    (successIDs (runStarts freshExecutor
      (List.replicate 18446744073709551617 callOk)).2)[0]? = some 0 ∧
    (successIDs (runStarts freshExecutor
      (List.replicate 18446744073709551617 callOk)).2)[18446744073709551616]? = some 0 ∧
    ¬ List.Pairwise (· < ·)
      (successIDs (runStarts freshExecutor (List.replicate 18446744073709551617 callOk)).2) :=
  successIDs_wrap 18446744073709551616 rfl

/-! ## Properties of the `Start` handler and of `writeCgroup` -/

/-- C15 (the code departs from the claim): the configuration the handler passes to the executor
has the request's `Cmd` and `Args`, and the value 0 for `CPUPercent`, `MemoryMB`, `ReadBPS` and
`WriteBPS`, whatever limits the request carries. For the request the client builds with its
default flags (10 % CPU, 1024 MB, 10 and 10 bytes per second) the job registered by the executor
has no limit at all. -/
theorem StartConfig_drops_limits :
    (∀ r : CreateRequest,
      (SchedulerServer.StartConfig r).Cmd = r.Cmd ∧
      (SchedulerServer.StartConfig r).Args = r.Args ∧
      (SchedulerServer.StartConfig r).CPUPercent = 0 ∧
      (SchedulerServer.StartConfig r).MemoryMB = 0 ∧
      (SchedulerServer.StartConfig r).ReadBPS = 0 ∧
      (SchedulerServer.StartConfig r).WriteBPS = 0) ∧
    (clientRun "ls" ["-l"] 10 1024 10 10).Limits = some ⟨10, 1024, 10, 10⟩ ∧
    ((SchedulerServer.StartOn freshExecutor (clientRun "ls" ["-l"] 10 1024 10 10) 0 1
        spawnOk).1.jobs.map
      (fun e => (e.1, e.2.config.CPUPercent, e.2.config.MemoryMB, e.2.config.ReadBPS,
        e.2.config.WriteBPS))) = [(0, 0, 0, 0, 0)] :=
  ⟨fun _ => ⟨rfl, rfl, rfl, rfl, rfl, rfl⟩, by decide, by decide⟩

theorem Itoa_uintToInt (x : Nat) (h : x < 9223372036854775808) :
    Itoa (uintToInt x) = toString x := by
  unfold Itoa uintToInt
  rw [if_pos h]
  rfl

theorem uintMul_small (a b : Nat) (h : a * b < 18446744073709551616) : uintMul a b = a * b := by
  unfold uintMul
  exact Nat.mod_eq_of_lt h

theorem ioMaxContent_eq (c : ProcessConfig) (hR : c.ReadBPS < 9223372036854775808)
    (hW : c.WriteBPS < 9223372036854775808) :
    ioMaxContent c =
      toString c.deviceMajor ++ ":0" ++
        (if c.ReadBPS ≥ 2 then " rbps=" ++ toString c.ReadBPS else "") ++
        (if c.WriteBPS ≥ 2 then " wbps=" ++ toString c.WriteBPS else "") := by
  have e0 : toString c.deviceMajor ++ ":" ++ toString 0 = toString c.deviceMajor ++ ":0" := by
    rw [String.append_assoc]; rfl
  have er : ∀ s x : String, s ++ " " ++ "rbps=" ++ x = s ++ (" rbps=" ++ x) := by
    intro s x
    rw [String.append_assoc, String.append_assoc, ← String.append_assoc " " "rbps=" x]
    rfl
  have ew : ∀ s x : String, s ++ " " ++ "wbps=" ++ x = s ++ (" wbps=" ++ x) := by
    intro s x
    rw [String.append_assoc, String.append_assoc, ← String.append_assoc " " "wbps=" x]
    rfl
  unfold ioMaxContent
  simp only [e0, Itoa_uintToInt _ hR, Itoa_uintToInt _ hW]
  by_cases h1 : c.ReadBPS > 1 <;> by_cases h2 : c.WriteBPS > 1
  · rw [if_pos h2, if_pos h1, if_pos (show c.ReadBPS ≥ 2 from h1),
      if_pos (show c.WriteBPS ≥ 2 from h2), er, ew]
  · rw [if_neg h2, if_pos h1, if_pos (show c.ReadBPS ≥ 2 from h1),
      if_neg (show ¬ c.WriteBPS ≥ 2 from h2), er, String.append_empty]
  · rw [if_pos h2, if_neg h1, if_neg (show ¬ c.ReadBPS ≥ 2 from h1),
      if_pos (show c.WriteBPS ≥ 2 from h2), ew, String.append_empty]
  · rw [if_neg h2, if_neg h1, if_neg (show ¬ c.ReadBPS ≥ 2 from h1),
      if_neg (show ¬ c.WriteBPS ≥ 2 from h2), String.append_empty, String.append_empty]

theorem writeCgroup_lookup_cpu (pid : Nat) (c : ProcessConfig) (basePath : String)
    (fs : CgroupFS)
    (hmk : fs.mkdirAll (basePath ++ "/" ++ c.cgroupPrefix ++ "-" ++ toString pid) = none) :
    (writeCgroup pid c basePath fs).written.lookup "cpu.max" =
      if c.CPUPercent > 0 then
        some (toString (uintMul (maxCPUTime / 100) c.CPUPercent) ++ " " ++ toString maxCPUTime)
      else none := by
  cases h1 : fs.writeFile (basePath ++ "/" ++ c.cgroupPrefix ++ "-" ++ toString pid ++ "/" ++
      "cpu.max")
    (toString (uintMul (maxCPUTime / 100) c.CPUPercent) ++ " " ++ toString maxCPUTime) <;>
  cases h2 : fs.writeFile (basePath ++ "/" ++ c.cgroupPrefix ++ "-" ++ toString pid ++ "/" ++
      "memory.max")
    (toString (uintMul (uintMul c.MemoryMB 1024) 1024) ++ "\n") <;>
  cases h3 : fs.writeFile (basePath ++ "/" ++ c.cgroupPrefix ++ "-" ++ toString pid ++ "/" ++
      "memory.high")
    (toString (uintMul (uintMul c.MemoryMB 1024) 1024) ++ "\n") <;>
  cases h4 : fs.writeFile (basePath ++ "/" ++ c.cgroupPrefix ++ "-" ++ toString pid ++ "/" ++
      "io.max") (ioMaxContent c) <;>
  by_cases hP : c.CPUPercent > 0 <;> by_cases hM : c.MemoryMB > 0 <;>
  by_cases hio : c.deviceMajor > 1 ∧ (c.ReadBPS ≥ 2 ∨ c.WriteBPS ≥ 2) <;>
  simp [writeCgroup, hmk, CgroupResult.WriteFile, bind, Except.bind, pure, Except.pure,
    h1, h2, h3, h4, hP, hM, hio, List.lookup]

theorem writeCgroup_lookup_io (pid : Nat) (c : ProcessConfig) (basePath : String)
    (fs : CgroupFS)
    (hmk : fs.mkdirAll (basePath ++ "/" ++ c.cgroupPrefix ++ "-" ++ toString pid) = none)
    (h1 : ∀ content, fs.writeFile (basePath ++ "/" ++ c.cgroupPrefix ++ "-" ++ toString pid ++
      "/" ++ "cpu.max") content = none)
    (h2 : ∀ content, fs.writeFile (basePath ++ "/" ++ c.cgroupPrefix ++ "-" ++ toString pid ++
      "/" ++ "memory.max") content = none)
    (h3 : ∀ content, fs.writeFile (basePath ++ "/" ++ c.cgroupPrefix ++ "-" ++ toString pid ++
      "/" ++ "memory.high") content = none) :
    (writeCgroup pid c basePath fs).written.lookup "io.max" =
      if c.deviceMajor > 1 ∧ (c.ReadBPS ≥ 2 ∨ c.WriteBPS ≥ 2) then some (ioMaxContent c)
      else none := by
  cases h4 : fs.writeFile (basePath ++ "/" ++ c.cgroupPrefix ++ "-" ++ toString pid ++ "/" ++
      "io.max") (ioMaxContent c) <;>
  by_cases hP : c.CPUPercent > 0 <;> by_cases hM : c.MemoryMB > 0 <;>
  by_cases hio : c.deviceMajor > 1 ∧ (c.ReadBPS ≥ 2 ∨ c.WriteBPS ≥ 2) <;>
  simp [writeCgroup, hmk, CgroupResult.WriteFile, bind, Except.bind, pure, Except.pure,
    h1, h2, h3, h4, hP, hM, hio, List.lookup]

/-- C14 (the code departs from the claim): `process.execute` discards the error returned by
`setupCgroup`. For every job and every outcome of the cgroup file-system calls, when the
command is resolved, the output file created and the helper spawned, `Start` returns no error
and the state is `Running`. That includes a file system on which `cpu.max` cannot be written and
one on which the cgroup directory cannot be created, for a job asking for a 10 % CPU limit:
`writeCgroup` returns an error, and in the second case the descriptor 0. -/
theorem Start_ignores_cgroup_error :
    (∀ (pid : Nat) (cfg : ProcessConfig) (t0 now : Time) (fs : CgroupFS) (path file : String)
      (ospid : Int),
      ((newProcess pid cfg t0).Start now
        { lookPath := .ok path, createTemp := .ok file,
          setupCgroup := (newProcess pid cfg t0).setupCgroup fs, cmdStart := .ok ospid }).2 =
        none ∧
      ((newProcess pid cfg t0).Start now
        { lookPath := .ok path, createTemp := .ok file,
          setupCgroup := (newProcess pid cfg t0).setupCgroup fs,
          cmdStart := .ok ospid }).1.status.State = .Running) ∧
    ((newProcess 0 testConfig 0).setupCgroup fsReadOnly).2.2 = some "permission denied" ∧
    (writeCgroup 0 testConfig cgroupPath fsReadOnly).written = [("cpu.max", "10000 100000")] ∧
    (newProcess 0 testConfig 0).setupCgroup fsNoMkdir =
      (0, "/sys/fs/cgroup/-0", some "mkdir: permission denied") ∧
    (writeCgroup 0 testConfig cgroupPath fsNoMkdir).written = [] := by
  refine ⟨fun pid cfg t0 now fs path file ospid => ?_, by decide, by decide, by decide,
    by decide⟩
  have h := (Start_new_job pid cfg t0 now
    { lookPath := .ok path, createTemp := .ok file,
      setupCgroup := (newProcess pid cfg t0).setupCgroup fs, cmdStart := .ok ospid }).2.2.2
    path file ospid rfl rfl rfl
  exact ⟨h.1, h.2.1⟩

/-- C16 (as amended): when the cgroup directory can be created, `writeCgroup` writes `cpu.max`
(calls `os.WriteFile` for it) if and only if the CPU percentage `P` is positive, and the content written is the decimal of
`P * 1000` reduced modulo 2^64, a single space, and `100000`. For every `P` with
`P * 1000 < 2^64` this is the decimal of `P * 1000`, and for `0 < P ≤ 100` the quota does not
exceed the period. -/
theorem writeCgroup_cpu_max (pid : Nat) (c : ProcessConfig) (basePath : String)
    (fs : CgroupFS)
    (hmk : fs.mkdirAll (basePath ++ "/" ++ c.cgroupPrefix ++ "-" ++ toString pid) = none) :
    (writeCgroup pid c basePath fs).written.lookup "cpu.max" =
      (if c.CPUPercent > 0 then
        some (toString (c.CPUPercent * 1000 % 18446744073709551616) ++ " " ++ "100000")
      else none) ∧
    (c.CPUPercent * 1000 < 18446744073709551616 →
      (writeCgroup pid c basePath fs).written.lookup "cpu.max" =
        if c.CPUPercent > 0 then some (toString (c.CPUPercent * 1000) ++ " " ++ "100000")
        else none) ∧
    (0 < c.CPUPercent → c.CPUPercent ≤ 100 →
      uintMul (maxCPUTime / 100) c.CPUPercent = c.CPUPercent * 1000 ∧
      uintMul (maxCPUTime / 100) c.CPUPercent ≤ maxCPUTime) := by
  have hq : uintMul (maxCPUTime / 100) c.CPUPercent =
      c.CPUPercent * 1000 % 18446744073709551616 := by
    unfold uintMul maxCPUTime
    rw [show (100000 / 100 : Nat) = 1000 from rfl, Nat.mul_comm]
  have hm : toString maxCPUTime = "100000" := by decide
  have h := writeCgroup_lookup_cpu pid c basePath fs hmk
  rw [hq, hm] at h
  refine ⟨h, fun hlt => ?_, fun h0 h100 => ?_⟩
  · rw [h, Nat.mod_eq_of_lt hlt]
  · rw [hq, Nat.mod_eq_of_lt (by omega)]
    unfold maxCPUTime
    omega

/-- Witness for C16 as amended: the configuration of `TestCGroupCreation`, with `P = 10`, gives
the content `10000 100000`. -/
theorem writeCgroup_cpu_max_witness :
    (writeCgroup 0 testConfig "/tmp/t" fsOk).written.lookup "cpu.max" = some "10000 100000" := by
  have h := (writeCgroup_cpu_max 0 testConfig "/tmp/t" fsOk rfl).2.1 (by decide)
  rw [h]
  decide

/-- C16 (counterexample to the claim as stated): for `P = 18446744073709552` the product
`P * 1000` exceeds 2^64 and wraps around, and the content written to `cpu.max` is
`384 100000`, which is not the decimal of `P * 1000`. -/
theorem writeCgroup_cpu_max_wraps :
    (writeCgroup 0 { testConfig with CPUPercent := 18446744073709552 } "/tmp/t"
        fsOk).written.lookup "cpu.max" = some "384 100000" ∧
    toString (18446744073709552 * 1000) ++ " " ++ "100000" = "18446744073709552000 100000" ∧
    "384 100000" ≠ "18446744073709552000 100000" := by
  refine ⟨by decide, by decide, by decide⟩

/-- C17 (as amended): when the cgroup directory can be created and the control files before it
written, then for every device major `D`, read limit `R` and write limit `W`, `writeCgroup`
writes `io.max` if and only if `D` is greater than 1 and `R` or `W` is at least 2, and what it
writes is `ioMaxContent`. For `R` and `W` below 2^63 the content is `D:0`, followed by
` rbps=R` exactly when `R ≥ 2`, followed by ` wbps=W` exactly when `W ≥ 2`. The content does
not depend on the device minor. -/
theorem writeCgroup_io_max (pid : Nat) (c : ProcessConfig) (basePath : String)
    (fs : CgroupFS)
    (hmk : fs.mkdirAll (basePath ++ "/" ++ c.cgroupPrefix ++ "-" ++ toString pid) = none)
    (h1 : ∀ content, fs.writeFile (basePath ++ "/" ++ c.cgroupPrefix ++ "-" ++ toString pid ++
      "/" ++ "cpu.max") content = none)
    (h2 : ∀ content, fs.writeFile (basePath ++ "/" ++ c.cgroupPrefix ++ "-" ++ toString pid ++
      "/" ++ "memory.max") content = none)
    (h3 : ∀ content, fs.writeFile (basePath ++ "/" ++ c.cgroupPrefix ++ "-" ++ toString pid ++
      "/" ++ "memory.high") content = none) :
    ((writeCgroup pid c basePath fs).written.lookup "io.max" ≠ none ↔
      c.deviceMajor > 1 ∧ (c.ReadBPS ≥ 2 ∨ c.WriteBPS ≥ 2)) ∧
    (writeCgroup pid c basePath fs).written.lookup "io.max" =
      (if c.deviceMajor > 1 ∧ (c.ReadBPS ≥ 2 ∨ c.WriteBPS ≥ 2) then some (ioMaxContent c)
      else none) ∧
    (c.ReadBPS < 9223372036854775808 → c.WriteBPS < 9223372036854775808 →
      (writeCgroup pid c basePath fs).written.lookup "io.max" =
        (if c.deviceMajor > 1 ∧ (c.ReadBPS ≥ 2 ∨ c.WriteBPS ≥ 2) then
          some (toString c.deviceMajor ++ ":0" ++
            (if c.ReadBPS ≥ 2 then " rbps=" ++ toString c.ReadBPS else "") ++
            (if c.WriteBPS ≥ 2 then " wbps=" ++ toString c.WriteBPS else ""))
        else none)) ∧
    (∀ minor : Nat, ioMaxContent { c with deviceMinor := minor } = ioMaxContent c) := by
  have hio := writeCgroup_lookup_io pid c basePath fs hmk h1 h2 h3
  refine ⟨?_, hio, fun hR hW => ?_, fun _ => rfl⟩
  · rw [hio]
    by_cases hc : c.deviceMajor > 1 ∧ (c.ReadBPS ≥ 2 ∨ c.WriteBPS ≥ 2)
    · rw [if_pos hc]
      exact ⟨fun _ => hc, fun _ => by simp⟩
    · rw [if_neg hc]
      exact ⟨fun h => absurd rfl h, fun h => absurd h hc⟩
  · rw [hio, ioMaxContent_eq c hR hW]

/-- Witness for C17 as amended: as in `TestCGroupCreation`, `D = 200`, `R = 1`, `W = 2` gives
the content `200:0 wbps=2`; and with `R = 2^63`, beyond the range of `int`, `io.max` is still
written. -/
theorem writeCgroup_io_max_witness :
    (writeCgroup 0 { testConfig with CPUPercent := 0, MemoryMB := 0, ReadBPS := 1, WriteBPS := 2 }
        "/tmp/t" fsOk).written.lookup "io.max" = some "200:0 wbps=2" ∧
    (writeCgroup 0 { testConfig with ReadBPS := 9223372036854775808, WriteBPS := 0 }
        "/tmp/t" fsOk).written.lookup "io.max" ≠ none := by
  have h := (writeCgroup_io_max 0
    { testConfig with CPUPercent := 0, MemoryMB := 0, ReadBPS := 1, WriteBPS := 2 }
    "/tmp/t" fsOk rfl (fun _ => rfl) (fun _ => rfl) (fun _ => rfl)).2.2.1 (by decide) (by decide)
  have h' := (writeCgroup_io_max 0
    { testConfig with ReadBPS := 9223372036854775808, WriteBPS := 0 }
    "/tmp/t" fsOk rfl (fun _ => rfl) (fun _ => rfl) (fun _ => rfl)).1
  refine ⟨?_, h'.2 (by decide)⟩
  rw [h]
  decide

/-- C17 (counterexample to the claim as stated): for the read limit `R = 2^63` the conversion
`int(R)` is negative and the content written to `io.max` is
`200:0 rbps=-9223372036854775808 wbps=10`, which is not `200:0 rbps=R wbps=10`. -/
theorem writeCgroup_io_max_negative :
    (writeCgroup 0 { testConfig with ReadBPS := 9223372036854775808 } "/tmp/t"
        fsOk).written.lookup "io.max" = some "200:0 rbps=-9223372036854775808 wbps=10" ∧
    "200:0" ++ " rbps=" ++ toString 9223372036854775808 ++ " wbps=" ++ toString 10 =
      "200:0 rbps=9223372036854775808 wbps=10" ∧
    "200:0 rbps=-9223372036854775808 wbps=10" ≠ "200:0 rbps=9223372036854775808 wbps=10" := by
  refine ⟨by decide, by decide, by decide⟩

/-! ## Properties of `ReadRootFSMount` -/

theorem Split_ne_nil (sep : Char) (s : List Char) : strings.Split sep s ≠ [] := by
  cases s with
  | nil => simp [strings.Split]
  | cons c cs =>
    unfold strings.Split
    split <;> simp

theorem ReadStrings_last (l : List Char) (h : '\n' ∉ l) : ReadStrings l = [(l, true)] := by
  induction l with
  | nil => rfl
  | cons c l ih =>
    have hc : c ≠ '\n' := fun e => h (by simp [e])
    have hl : '\n' ∉ l := fun e => h (by simp [e])
    unfold ReadStrings
    rw [if_neg hc, ih hl]
    rfl

theorem ReadStrings_line (l rest : List Char) (h : '\n' ∉ l) :
    ReadStrings (l ++ '\n' :: rest) = (l ++ ['\n'], false) :: ReadStrings rest := by
  induction l with
  | nil =>
    show ReadStrings ('\n' :: rest) = _
    conv_lhs => unfold ReadStrings
    rw [if_pos rfl]
    rfl
  | cons c l ih =>
    have hc : c ≠ '\n' := fun e => h (by simp [e])
    have hl : '\n' ∉ l := fun e => h (by simp [e])
    show ReadStrings (c :: (l ++ '\n' :: rest)) = _
    conv_lhs => unfold ReadStrings
    rw [if_neg hc, ih hl]
    rfl

theorem body_ok_rootRecord (line : List Char) (r : Nat × Nat)
    (h : ReadRootFSMount.body line = some (.ok r)) : rootRecord line = true := by
  unfold ReadRootFSMount.body at h
  simp only at h
  split at h
  · simp at h
  · split at h
    · rename_i hroot
      unfold rootRecord
      rw [← hroot.1, hroot.2]
      simp
    · simp at h

theorem body_of_not_root (line : List Char) (hr : rootRecord line = false) :
    ReadRootFSMount.body line = none ∨ ∃ e, ReadRootFSMount.body line = some (.error e) := by
  cases hb : ReadRootFSMount.body line with
  | none => exact Or.inl rfl
  | some res =>
    cases res with
    | error e => exact Or.inr ⟨e, rfl⟩
    | ok r =>
      rw [body_ok_rootRecord line r hb] at hr
      exact absurd hr (by decide)

theorem body_short (line : List Char) (h6 : (strings.Split ' ' line).length < 6) :
    ∃ e, ReadRootFSMount.body line = some (.error e) := by
  unfold ReadRootFSMount.body
  simp only
  rw [if_pos h6]
  exact ⟨_, rfl⟩

theorem loop_error_of_no_root (rs : List (List Char × Bool))
    (h : ∀ r ∈ rs, rootRecord r.1 = false) : ∃ e, ReadRootFSMount.loop rs = .error e := by
  induction rs with
  | nil => exact ⟨_, rfl⟩
  | cons r rs ih =>
    obtain ⟨line, eof⟩ := r
    unfold ReadRootFSMount.loop
    cases eof with
    | true => exact ⟨_, rfl⟩
    | false =>
      simp only [Bool.false_eq_true, if_false]
      rcases body_of_not_root line (h (line, false) (by simp)) with hb | ⟨e, hb⟩
      · rw [hb]
        exact ih (fun r hr => h r (by simp [hr]))
      · rw [hb]
        exact ⟨e, rfl⟩

theorem ReadRootFSMount_cons_line (l rest : List Char) (h : '\n' ∉ l) :
    ReadRootFSMount (l ++ '\n' :: rest) =
      match ReadRootFSMount.body (l ++ ['\n']) with
      | some result => result
      | none => ReadRootFSMount rest := by
  unfold ReadRootFSMount
  rw [ReadStrings_line l rest h]
  rfl

theorem ReadRootFSMount_error_after (pre : List (List Char)) (rest : List Char)
    (h : ∀ l ∈ pre, '\n' ∉ l ∧ rootRecord (l ++ ['\n']) = false)
    (hrest : ∃ e, ReadRootFSMount rest = .error e) :
    ∃ e, ReadRootFSMount (mountTable pre ++ rest) = .error e := by
  induction pre with
  | nil => exact hrest
  | cons l ls ih =>
    have hl := h l (by simp)
    show ∃ e, ReadRootFSMount ((l ++ '\n' :: mountTable ls) ++ rest) = .error e
    rw [List.append_assoc, List.cons_append, ReadRootFSMount_cons_line _ _ hl.1]
    rcases body_of_not_root _ hl.2 with hb | ⟨e, hb⟩
    · rw [hb]
      exact ih (fun l' hl' => h l' (by simp [hl']))
    · rw [hb]
      exact ⟨e, rfl⟩

/-- C19: for every mount table none of whose records has both root `/` and mount point `/`,
`ReadRootFSMount` returns an error. -/
theorem ReadRootFSMount_no_root (table : List Char)
    (h : ∀ line ∈ records table, rootRecord line = false) :
    ∃ e, ReadRootFSMount table = .error e := by
  unfold ReadRootFSMount
  apply loop_error_of_no_root
  intro r hr
  exact h r.1 (List.mem_map.2 ⟨r, hr, rfl⟩)

/-- Witness for C19: the table of `TestMountInfoReaderFailure`, three records none of which is
mounted on `/`. -/
theorem ReadRootFSMount_no_root_witness :
    ∃ e, ReadRootFSMount
      ("27 20 0:24 / /sys/fs/pstore rw,nosuid,nodev,noexec,relatime shared:5 - pstore pstore rw\n" ++
        "\t\t28 20 0:25 / /sys/fs/bpf rw,nosuid,nodev,noexec,relatime shared:6 - bpf bpf rw\n" ++
        "\t\t34 20 0:7 / /sys/kernel/debug rw,nosuid,nodev shared:16 - debugfs debugfs rw").toList =
      .error e :=
  ReadRootFSMount_no_root _ (by decide)

theorem Split_length (sep : Char) (s : List Char) :
    (strings.Split sep s).length = s.count sep + 1 := by
  induction s with
  | nil => rfl
  | cons c cs ih =>
    unfold strings.Split
    by_cases hc : c = sep
    · subst hc
      rw [if_pos rfl, List.length_cons, ih, List.count_cons_self]
    · rw [if_neg hc, List.length_cons, List.length_tail, ih,
        List.count_cons_of_ne (fun e => hc e.symm)]
      rfl

/-- C20 (as amended): for every mount table in which a line with fewer than 6 fields comes
before any record with root `/` and mount point `/`, `ReadRootFSMount` returns an error, whether
that line is followed by other lines or is the final line, with or without its newline. -/
theorem ReadRootFSMount_short_line (pre : List (List Char)) (short post : List Char)
    (hpre : ∀ l ∈ pre, '\n' ∉ l ∧ rootRecord (l ++ ['\n']) = false)
    (hs : '\n' ∉ short) (h6 : (strings.Split ' ' short).length < 6) :
    (∃ e, ReadRootFSMount (mountTable pre ++ (short ++ '\n' :: post)) = .error e) ∧
    (∃ e, ReadRootFSMount (mountTable pre ++ short) = .error e) := by
  constructor
  · apply ReadRootFSMount_error_after pre _ hpre
    rw [ReadRootFSMount_cons_line _ _ hs]
    have hlen : (strings.Split ' ' (short ++ ['\n'])).length < 6 := by
      rw [Split_length] at h6 ⊢
      rw [List.count_append]
      have : List.count ' ' ['\n'] = 0 := by decide
      omega
    obtain ⟨e, he⟩ := body_short _ hlen
    rw [he]
    exact ⟨e, rfl⟩
  · apply ReadRootFSMount_error_after pre _ hpre
    unfold ReadRootFSMount
    rw [ReadStrings_last _ hs]
    exact ⟨_, rfl⟩

/-- Witness for C20 as amended: a line of two fields after a record that is not mounted on `/`
makes `ReadRootFSMount` fail, as a middle line and as an unterminated final line. -/
theorem ReadRootFSMount_short_line_witness :
    (∃ e, ReadRootFSMount
      "27 20 0:24 / /sys rw shared:5 - pstore pstore rw\n27 20\n59 1 202:1 / / rw - xfs x rw\n".toList =
        .error e) ∧
    (∃ e, ReadRootFSMount "27 20 0:24 / /sys rw shared:5 - pstore pstore rw\n27 20".toList =
        .error e) :=
  ReadRootFSMount_short_line ["27 20 0:24 / /sys rw shared:5 - pstore pstore rw".toList]
    "27 20".toList "59 1 202:1 / / rw - xfs x rw\n".toList (by decide) (by decide) (by decide)

/-- C20 (counterexample to the claim as stated): a line with fewer than 6 fields that comes
after the root record is never read: `ReadRootFSMount` returns the device numbers of the root
record and no error. -/
theorem ReadRootFSMount_short_line_after_root :
    ReadRootFSMount "59 1 202:1 / / rw - xfs /dev/xvda1 rw\n27 20\n".toList = .ok (202, 1) ∧
    (strings.Split ' ' "27 20".toList).length = 2 := by
  constructor <;> rfl

theorem digitChar_spec (d : Nat) (h : d < 10) :
    (Nat.digitChar d).isDigit = true ∧ (Nat.digitChar d).toNat - 48 = d := by
  interval_cases d <;> exact ⟨rfl, rfl⟩

theorem toDigitsCore_spec (fuel : Nat) :
    ∀ (n : Nat) (ds : List Char), n < fuel →
      ∃ D : List Char, Nat.toDigitsCore 10 fuel n ds = D ++ ds ∧ D ≠ [] ∧
        (∀ c ∈ D, c.isDigit = true) ∧
        D.foldl (fun (a : Nat) ch => a * 10 + (ch.toNat - 48)) 0 = n := by
  induction fuel with
  | zero => intro n ds h; exact absurd h (Nat.not_lt_zero n)
  | succ fuel ih =>
    intro n ds h
    obtain ⟨hd1, hd2⟩ := digitChar_spec (n % 10) (Nat.mod_lt n (by decide))
    unfold Nat.toDigitsCore
    by_cases h0 : n / 10 = 0
    · simp only [h0, if_true]
      refine ⟨[Nat.digitChar (n % 10)], rfl, by simp, ?_, ?_⟩
      · intro c hc
        rw [List.mem_singleton.1 hc]; exact hd1
      · simp only [List.foldl_cons, List.foldl_nil, hd2]
        omega
    · simp only [h0, if_false]
      obtain ⟨D, hD, hne, hdig, hval⟩ := ih (n / 10) (Nat.digitChar (n % 10) :: ds) (by omega)
      refine ⟨D ++ [Nat.digitChar (n % 10)], ?_, by simp, ?_, ?_⟩
      · rw [hD]; simp
      · intro c hc
        rcases List.mem_append.1 hc with hc | hc
        · exact hdig c hc
        · rw [List.mem_singleton.1 hc]; exact hd1
      · rw [List.foldl_append, hval]
        simp only [List.foldl_cons, List.foldl_nil, hd2]
        omega

theorem decimal_spec (n : Nat) :
    decimal n ≠ [] ∧ (∀ c ∈ decimal n, c.isDigit = true) ∧
      (decimal n).foldl (fun (a : Nat) ch => a * 10 + (ch.toNat - 48)) 0 = n := by
  obtain ⟨D, hD, hne, hdig, hval⟩ := toDigitsCore_spec (n + 1) n [] (Nat.lt_succ_self n)
  have : decimal n = D := by
    unfold decimal Nat.toDigits
    rw [hD, List.append_nil]
  rw [this]
  exact ⟨hne, hdig, hval⟩

theorem not_mem_decimal (n : Nat) (x : Char) (hx : x.isDigit = false) : x ∉ decimal n := by
  intro h
  rw [(decimal_spec n).2.1 x h] at hx
  exact absurd hx (by decide)

theorem isDigit_sub_le (c : Char) (h : c.isDigit = true) : c.toNat - 48 ≤ 9 := by
  unfold Char.isDigit at h
  simp only [Bool.and_eq_true, decide_eq_true_eq] at h
  have h2 : c.val.toNat ≤ 57 := h.2
  unfold Char.toNat
  omega

theorem foldl_digits_ge (ds : List Char) :
    ∀ n : Nat, n ≤ ds.foldl (fun (a : Nat) ch => a * 10 + (ch.toNat - 48)) n := by
  induction ds with
  | nil => intro n; exact Nat.le_refl n
  | cons c cs ih =>
    intro n
    rw [List.foldl_cons]
    have := ih (n * 10 + (c.toNat - 48))
    omega

theorem ParseUint_loop_digits (ds : List Char) :
    ∀ n : Nat, (∀ c ∈ ds, c.isDigit = true) →
      strconv.ParseUint.loop ds n =
        if ds = [] ∨ ds.foldl (fun (a : Nat) ch => a * 10 + (ch.toNat - 48)) n <
            18446744073709551616 then
          (ds.foldl (fun (a : Nat) ch => a * 10 + (ch.toNat - 48)) n, none)
        else (18446744073709551615, some "value out of range") := by
  induction ds with
  | nil => intro n _; simp [strconv.ParseUint.loop]
  | cons c cs ih =>
    intro n hd
    have hc : c.isDigit = true := hd c (by simp)
    have hd9 := isDigit_sub_le c hc
    have hge := foldl_digits_ge cs (n * 10 + (c.toNat - 48))
    rw [List.foldl_cons]
    unfold strconv.ParseUint.loop
    rw [if_neg (by simp [hc])]
    by_cases hcut : n ≥ 1844674407370955162
    · rw [if_pos hcut, if_neg (by simp; omega)]
    · rw [if_neg hcut]
      simp only
      by_cases hov : n * 10 + (c.toNat - 48) < 18446744073709551616
      · rw [Nat.mod_eq_of_lt hov, if_neg (by omega), ih _ (fun x hx => hd x (by simp [hx]))]
        by_cases hcs : cs = []
        · subst hcs
          simp [hov]
        · simp [hcs]
      · have hm : (n * 10 + (c.toNat - 48)) % 18446744073709551616 < n * 10 := by omega
        rw [if_pos (Or.inl hm), if_neg (by simp; omega)]

theorem ParseUint_loop_error (ds : List Char) :
    ∀ n : Nat, ds.all Char.isDigit = false →
      (strconv.ParseUint.loop ds n).2 = some "invalid syntax" ∨
        strconv.ParseUint.loop ds n = (18446744073709551615, some "value out of range") := by
  induction ds with
  | nil => intro n h; simp at h
  | cons c cs ih =>
    intro n h
    unfold strconv.ParseUint.loop
    by_cases hc : c.isDigit = false
    · rw [if_pos hc]; exact Or.inl rfl
    · rw [if_neg hc]
      by_cases hcut : n ≥ 1844674407370955162
      · rw [if_pos hcut]; exact Or.inr rfl
      · rw [if_neg hcut]
        simp only
        split
        · exact Or.inr rfl
        · apply ih
          simp only [List.all_cons, Bool.and_eq_false_iff] at h
          rcases h with h | h
          · exact absurd h hc
          · exact h

/-- What `strconv.Atoi` returns, by the shape of the string after its optional sign: for one or
more decimal digits the value when it is in the range of `int`, else a range error with the
nearest bound; for anything else an error. -/
theorem Atoi_cases (s : List Char) :
    ((decimalDigits s ≠ [] ∧ (decimalDigits s).all Char.isDigit = true) →
      strconv.Atoi s =
        if s.head? = some '-' then
          if (decimalDigits s).foldl (fun (n : Nat) ch => n * 10 + (ch.toNat - 48)) 0 >
              9223372036854775808 then
            (-9223372036854775808, some "value out of range")
          else
            (-(((decimalDigits s).foldl (fun (n : Nat) ch => n * 10 + (ch.toNat - 48)) 0 :
              Nat) : Int), none)
        else
          if (decimalDigits s).foldl (fun (n : Nat) ch => n * 10 + (ch.toNat - 48)) 0 ≥
              9223372036854775808 then
            (9223372036854775807, some "value out of range")
          else
            ((((decimalDigits s).foldl (fun (n : Nat) ch => n * 10 + (ch.toNat - 48)) 0 :
              Nat) : Int), none)) ∧
    ((decimalDigits s = [] ∨ (decimalDigits s).all Char.isDigit = false) →
      (strconv.Atoi s).2 ≠ none) := by
  have hnil : s = [] → decimalDigits s = [] := fun h => by subst h; rfl
  unfold strconv.Atoi strconv.ParseInt
  by_cases hs : s = []
  · rw [if_pos hs]
    exact ⟨fun h => absurd (hnil hs) h.1, fun _ => by simp⟩
  · rw [if_neg hs]
    simp only
    have hD : (if s.head? = some '-' ∨ s.head? = some '+' then s.tail else s) =
        decimalDigits s := rfl
    rw [hD]
    generalize decimalDigits s = D
    constructor
    · rintro ⟨hne, hall⟩
      have hdig : ∀ c ∈ D, c.isDigit = true := List.all_eq_true.1 hall
      have hP : strconv.ParseUint D = strconv.ParseUint.loop D 0 := by
        unfold strconv.ParseUint
        rw [if_neg hne]
      rw [hP, ParseUint_loop_digits D 0 hdig]
      generalize D.foldl (fun (a : Nat) ch => a * 10 + (ch.toNat - 48)) 0 = un
      by_cases hlt : un < 18446744073709551616
      · rw [if_pos (Or.inr hlt)]
        rw [if_neg (by simp)]
      · have hr : (if D = [] ∨ un < 18446744073709551616 then (un, (none : Option String))
            else (18446744073709551615, some "value out of range")) =
            (18446744073709551615, some "value out of range") := if_neg (by simp [hne, hlt])
        rw [hr]
        by_cases hneg : s.head? = some '-'
        · simp only [hneg, if_true]
          rw [if_neg (by decide), if_pos (by decide), if_pos (by omega)]
        · simp only [hneg, if_false]
          rw [if_neg (by decide), if_pos (by decide), if_pos (by omega)]
    · intro h
      by_cases hne : D = []
      · have hP : strconv.ParseUint D = (0, some "invalid syntax") := by
          unfold strconv.ParseUint
          rw [if_pos hne]
        rw [hP, if_pos rfl]
        simp
      · have hall : D.all Char.isDigit = false := h.resolve_left hne
        have hP : strconv.ParseUint D = strconv.ParseUint.loop D 0 := by
          unfold strconv.ParseUint
          rw [if_neg hne]
        rw [hP]
        rcases ParseUint_loop_error D 0 hall with h1 | h1
        · rw [if_pos h1]
          simp
        · rw [h1, if_neg (by decide)]
          by_cases hneg : s.head? = some '-'
          · rw [if_pos hneg, if_pos (by decide)]
            simp
          · rw [if_neg hneg, if_pos (by decide)]
            simp

/-- The order of the two errors of `strconv.Atoi`: digits that overflow before a byte that is
not a digit give the range error, a byte that is not a digit before any overflow the syntax
error. -/
theorem Atoi_error_order :
    strconv.Atoi "99999999999999999999x".toList =
      (9223372036854775807, some "value out of range") ∧
    strconv.Atoi "9x9999999999999999999".toList = (0, some "invalid syntax") ∧
    strconv.Atoi "-99999999999999999999".toList =
      (-9223372036854775808, some "value out of range") := by
  refine ⟨by decide, by decide, by decide⟩

theorem Atoi_decimal (n : Nat) (h : n < 9223372036854775808) :
    strconv.Atoi (decimal n) = ((n : Int), none) := by
  obtain ⟨hne, hdig, hval⟩ := decimal_spec n
  obtain ⟨c, D, hD⟩ := List.exists_cons_of_ne_nil hne
  have hc : c.isDigit = true := hdig c (by rw [hD]; simp)
  have hminus : c ≠ '-' := fun e => by rw [e] at hc; exact absurd hc (by decide)
  have hplus : c ≠ '+' := fun e => by rw [e] at hc; exact absurd hc (by decide)
  have hall : (decimal n).all Char.isDigit = true := List.all_eq_true.2 hdig
  have hhead : (decimal n).head? = some c := by rw [hD]; rfl
  have hdd : decimalDigits (decimal n) = decimal n := by
    unfold decimalDigits
    rw [if_neg (by simp [hhead, hminus, hplus])]
  have h1 := (Atoi_cases (decimal n)).1 (by rw [hdd]; exact ⟨hne, hall⟩)
  rw [h1, hdd, hval, if_neg (by simp [hhead, hminus]), if_neg (by omega)]

/-- C21 (the code departs from the claim): for a root record whose device field is `abc:def`,
`ReadRootFSMount` returns the device numbers `(0, 0)` and no error: the errors of the two
`strconv.Atoi` calls are discarded. A device field without colon, or with two colons, does
give an error. -/
theorem ReadRootFSMount_non_numeric_device :
    ReadRootFSMount "59 1 abc:def / / rw,noatime shared:1 - xfs /dev/xvda1 rw\n".toList =
      .ok (0, 0) ∧
    strconv.Atoi "abc".toList = (0, some "invalid syntax") ∧
    (ReadRootFSMount "59 1 202 / / rw,noatime shared:1 - xfs /dev/xvda1 rw\n".toList).toOption =
      none ∧
    (ReadRootFSMount "59 1 1:2:3 / / rw,noatime shared:1 - xfs /dev/xvda1 rw\n".toList).toOption =
      none := by
  refine ⟨rfl, rfl, rfl, rfl⟩

/-! ## Properties of the helper's environment -/

/-- The first case of `TestBuildExecArgsShould`: two arguments announced, one present. -/
theorem buildExecArgs_test :
    buildExecArgs (envOf [("JES_ARGC", "2"), ("JES_ARG_0", "arg1"), ("JES_CMD", "cmd")]) =
      (["cmd".toList, "arg1".toList], none) := by
  rfl

/-- The map built from two entries: an entry without `=` panics, and a value may itself hold
`=` or be empty. -/
theorem environmentToMap_test :
    (environmentToMap ["A=b=c".toList, "FOO".toList]).isNone = true ∧
    ((environmentToMap ["A=b=c".toList, "B=".toList]).map
      (fun m => (m "A".toList, m "B".toList, m "C".toList))) =
      some (some "b=c".toList, some [], none) := by
  constructor <;> rfl

/-- The environment generated for `/bin/ls -l ""`: an empty argument is emitted and
counted. -/
theorem generateEnv_test :
    generateEnv "/bin/ls".toList ["-l".toList, "".toList] =
      ["JES_ARG_0=-l".toList, "JES_ARG_1=".toList, "JES_CMD=/bin/ls".toList,
        "JES_CHILD=true".toList, "JES_ARGC=2".toList] := by
  rfl

/-- C25: for every environment map, the nil and the empty map included, `isHelper` is true if
and only if the map has the key `JES_CHILD` with the value exactly `true`. As in `TestIsHelper`,
the empty map and a map binding another name to the empty value give false, and so do
`JES_CHILD` bound to the empty value or to `TRUE`. -/
theorem isHelper_iff :
    (∀ e : EnvMap, isHelper e = true ↔ e jesChildEnvVar = some "true".toList) ∧
    isHelper (fun _ => none) = false ∧
    isHelper (envOf [("JES_CHILD_ENV_VAR", "")]) = false ∧
    isHelper (envOf [("JES_CHILD", "")]) = false ∧
    isHelper (envOf [("JES_CHILD", "TRUE")]) = false ∧
    isHelper (envOf [("JES_CHILD", "true")]) = true := by
  refine ⟨fun e => ?_, rfl, rfl, rfl, rfl, rfl⟩
  unfold isHelper
  cases h : e jesChildEnvVar with
  | none => simp
  | some v =>
    by_cases hv : v = "true".toList
    · simp [hv]
    · simp [hv]

theorem SplitN_two_of_not_mem (sep : Char) (s : List Char) (h : sep ∉ s) :
    strings.SplitN sep s 2 = [s] := by
  induction s with
  | nil => rfl
  | cons c s ih =>
    have hc : c ≠ sep := fun e => h (by simp [e])
    have hs : sep ∉ s := fun e => h (by simp [e])
    show strings.SplitN sep (c :: s) (0 + 2) = _
    unfold strings.SplitN
    rw [if_neg hc]
    show (c :: (strings.SplitN sep s 2).headD []) :: (strings.SplitN sep s 2).tail = _
    rw [ih hs]
    rfl

theorem SplitN_two_field (sep : Char) (k v : List Char) (h : sep ∉ k) :
    strings.SplitN sep (k ++ sep :: v) 2 = [k, v] := by
  induction k with
  | nil =>
    show strings.SplitN sep (sep :: v) (0 + 2) = _
    unfold strings.SplitN
    rw [if_pos rfl]
    cases v <;> rfl
  | cons c k ih =>
    have hc : c ≠ sep := fun e => h (by simp [e])
    have hk : sep ∉ k := fun e => h (by simp [e])
    show strings.SplitN sep (c :: (k ++ sep :: v)) (0 + 2) = _
    unfold strings.SplitN
    rw [if_neg hc]
    show (c :: (strings.SplitN sep (k ++ sep :: v) 2).headD []) ::
      (strings.SplitN sep (k ++ sep :: v) 2).tail = _
    rw [ih hk]
    rfl

theorem environmentToMap_loop_cons (env : EnvMap) (k v : List Char) (rest : List (List Char))
    (h : '=' ∉ k) :
    environmentToMap.loop env ((k ++ '=' :: v) :: rest) =
      environmentToMap.loop (fun x => if x = k then some v else env x) rest := by
  conv_lhs => unfold environmentToMap.loop
  simp only [SplitN_two_field '=' k v h]
  rfl

theorem environmentToMap_loop_panic (env : EnvMap) (e : List Char) (rest : List (List Char))
    (h : '=' ∉ e) : environmentToMap.loop env (e :: rest) = none := by
  conv_lhs => unfold environmentToMap.loop
  simp only [SplitN_two_of_not_mem '=' e h]
  rfl

theorem environmentToMap_panic_of_entry (before after : List (List Char)) (e : List Char)
    (hb : ∀ x ∈ before, ∃ k v, '=' ∉ k ∧ x = k ++ '=' :: v) (he : '=' ∉ e) :
    environmentToMap (before ++ e :: after) = none := by
  unfold environmentToMap
  generalize (fun _ => none : EnvMap) = env
  induction before generalizing env with
  | nil => exact environmentToMap_loop_panic env e after he
  | cons x before ih =>
    obtain ⟨k, v, hk, rfl⟩ := hb x (by simp)
    show environmentToMap.loop env ((k ++ '=' :: v) :: (before ++ e :: after)) = none
    rw [environmentToMap_loop_cons env k v _ hk]
    exact ih (fun y hy => hb y (by simp [hy])) _

/-- C30 (the code departs from the claim): for an entry without `=`, `strings.SplitN` returns a
single piece, the guard `len(t) > 0` lets it through and `t[1]` is out of range:
`environmentToMap` panics on the environment `PATH=/bin`, `FOO`. On an environment whose
entries all have the form `key=value` no panic occurs and the value is what follows the first
`=`: `A=b=c` binds `A` to `b=c`. -/
theorem environmentToMap_panics :
    strings.SplitN '=' "FOO".toList 2 = ["FOO".toList] ∧
    environmentToMap ["PATH=/bin".toList, "FOO".toList] = none ∧
    environmentToMap ["FOO".toList, "PATH=/bin".toList] = none ∧
    (environmentToMap ["PATH=/bin".toList, "A=b=c".toList]).map
      (fun m => (m "PATH".toList, m "A".toList)) =
      some (some "/bin".toList, some "b=c".toList) := by
  refine ⟨rfl, rfl, rfl, rfl⟩

theorem Atoi_spec (s : List Char) :
    ((strconv.Atoi s).2 = none ↔
      (isDecimalInteger s = true ∧ -9223372036854775808 ≤ decimalValue s ∧
        decimalValue s ≤ 9223372036854775807)) ∧
    ((strconv.Atoi s).2 = none → (strconv.Atoi s).1 = decimalValue s) := by
  obtain ⟨h1, h2⟩ := Atoi_cases s
  by_cases hD : decimalDigits s = [] ∨ (decimalDigits s).all Char.isDigit = false
  · have herr := h2 hD
    refine ⟨⟨fun h => absurd h herr, fun h => ?_⟩, fun h => absurd h herr⟩
    unfold isDecimalInteger at h
    rcases hD with hD | hD
    · simp [hD] at h
    · simp [hD] at h
  · have hD' : (decide (decimalDigits s ≠ []) && (decimalDigits s).all Char.isDigit) = true := by
      simp only [not_or] at hD
      simp [hD.1]
      simpa using hD.2
    have hD2 : decimalDigits s ≠ [] ∧ (decimalDigits s).all Char.isDigit = true := by
      simp only [not_or] at hD
      exact ⟨hD.1, by simpa using hD.2⟩
    rw [h1 hD2]
    unfold isDecimalInteger decimalValue
    generalize (decimalDigits s).foldl (fun (n : Nat) ch => n * 10 + (ch.toNat - 48)) 0 = un
    by_cases hneg : s.head? = some '-'
    · simp only [hneg, if_true]
      by_cases hr : un > 9223372036854775808
      · rw [if_pos hr]
        refine ⟨⟨fun h => absurd h (by simp), fun h => ?_⟩, fun h => absurd h (by simp)⟩
        omega
      · rw [if_neg hr]
        refine ⟨⟨fun _ => ⟨hD', by omega, by omega⟩, fun _ => rfl⟩, fun _ => rfl⟩
    · simp only [hneg, if_false]
      by_cases hr : un ≥ 9223372036854775808
      · rw [if_pos hr]
        refine ⟨⟨fun h => absurd h (by simp), fun h => ?_⟩, fun h => absurd h (by simp)⟩
        omega
      · rw [if_neg hr]
        refine ⟨⟨fun _ => ⟨hD', by omega, by omega⟩, fun _ => rfl⟩, fun _ => rfl⟩

theorem buildExecArgs_error (e : EnvMap) (cmd : List Char) (hcmd : e jesCmdEnvVar = some cmd) :
    ((buildExecArgs e).2 ≠ none ↔
      ((strconv.Atoi ((e jesArgCountEnvVar).getD [])).2 ≠ none ∨
        (strconv.Atoi ((e jesArgCountEnvVar).getD [])).1 > 50)) ∧
    ((buildExecArgs e).2 ≠ none → (buildExecArgs e).1 = []) := by
  unfold buildExecArgs
  simp only [hcmd]
  rcases hA : strconv.Atoi ((e jesArgCountEnvVar).getD []) with ⟨n, _ | err⟩
  · by_cases hn : n > 50
    · simp [hn]
    · simp [hn]
  · simp

/-- C22 (as amended): for every environment map that has `JES_CMD`, `buildExecArgs` returns an
error if and only if `JES_ARGC` is missing, is not a decimal integer, is less than -2^63 or is
greater than 50; `JES_ARGC = 50` is accepted and 51 is rejected; and on every error the
returned argument list is empty. -/
theorem buildExecArgs_error_iff (e : EnvMap) (cmd : List Char)
    (hcmd : e jesCmdEnvVar = some cmd) :
    ((buildExecArgs e).2 ≠ none ↔
      (e jesArgCountEnvVar = none ∨
        isDecimalInteger ((e jesArgCountEnvVar).getD []) = false ∨
        decimalValue ((e jesArgCountEnvVar).getD []) < -9223372036854775808 ∨
        decimalValue ((e jesArgCountEnvVar).getD []) > 50)) ∧
    (e jesArgCountEnvVar = some "50".toList → (buildExecArgs e).2 = none) ∧
    (e jesArgCountEnvVar = some "51".toList → (buildExecArgs e).2 ≠ none) ∧
    ((buildExecArgs e).2 ≠ none → (buildExecArgs e).1 = []) := by
  obtain ⟨hiff, hempty⟩ := buildExecArgs_error e cmd hcmd
  obtain ⟨hA, hV⟩ := Atoi_spec ((e jesArgCountEnvVar).getD [])
  have hmain : (buildExecArgs e).2 ≠ none ↔
      (e jesArgCountEnvVar = none ∨
        isDecimalInteger ((e jesArgCountEnvVar).getD []) = false ∨
        decimalValue ((e jesArgCountEnvVar).getD []) < -9223372036854775808 ∨
        decimalValue ((e jesArgCountEnvVar).getD []) > 50) := by
    rw [hiff]
    constructor
    · rintro (h | h)
      · rw [Ne, hA] at h
        by_cases hd : isDecimalInteger ((e jesArgCountEnvVar).getD []) = true
        · simp only [hd, true_and, not_and_or, not_le] at h
          rcases h with h | h
          · exact Or.inr (Or.inr (Or.inl h))
          · exact Or.inr (Or.inr (Or.inr (by omega)))
        · exact Or.inr (Or.inl (by simpa using hd))
      · by_cases hok : (strconv.Atoi ((e jesArgCountEnvVar).getD [])).2 = none
        · rw [hV hok] at h
          exact Or.inr (Or.inr (Or.inr h))
        · rw [hA] at hok
          by_cases hd : isDecimalInteger ((e jesArgCountEnvVar).getD []) = true
          · simp only [hd, true_and, not_and_or, not_le] at hok
            rcases hok with h' | h'
            · exact Or.inr (Or.inr (Or.inl h'))
            · exact Or.inr (Or.inr (Or.inr (by omega)))
          · exact Or.inr (Or.inl (by simpa using hd))
    · intro h
      by_cases hok : (strconv.Atoi ((e jesArgCountEnvVar).getD [])).2 = none
      · right
        rw [hV hok]
        obtain ⟨hd, hlo, -⟩ := hA.1 hok
        rcases h with h | h | h | h
        · rw [h] at hd; exact absurd hd (by decide)
        · rw [h] at hd; exact absurd hd (by decide)
        · omega
        · exact h
      · exact Or.inl hok
  refine ⟨hmain, fun h50 => ?_, fun h51 => ?_, hempty⟩
  · by_contra hne
    have := hmain.1 hne
    rw [h50] at this
    revert this
    decide
  · apply hmain.2
    rw [h51]
    decide

/-- Witness for C22 as amended: with `JES_CMD` set, `JES_ARGC = 50` is accepted, and a missing
`JES_ARGC`, the text `two` and the value 51 are rejected with an empty argument list. -/
theorem buildExecArgs_error_iff_witness :
    (buildExecArgs (envOf [("JES_CMD", "cmd"), ("JES_ARGC", "50")])).2 = none ∧
    (buildExecArgs (envOf [("JES_CMD", "cmd")])).2 ≠ none ∧
    (buildExecArgs (envOf [("JES_CMD", "cmd"), ("JES_ARGC", "two")])).2 ≠ none ∧
    (buildExecArgs (envOf [("JES_CMD", "cmd"), ("JES_ARGC", "51")])).1 = [] :=
  ⟨(buildExecArgs_error_iff (envOf [("JES_CMD", "cmd"), ("JES_ARGC", "50")]) "cmd".toList
      rfl).2.1 rfl,
    (buildExecArgs_error_iff (envOf [("JES_CMD", "cmd")]) "cmd".toList rfl).1.2
      (Or.inl rfl),
    (buildExecArgs_error_iff (envOf [("JES_CMD", "cmd"), ("JES_ARGC", "two")]) "cmd".toList
      rfl).1.2 (Or.inr (Or.inl (by decide))),
    (buildExecArgs_error_iff (envOf [("JES_CMD", "cmd"), ("JES_ARGC", "51")]) "cmd".toList
      rfl).2.2.2
      ((buildExecArgs_error_iff (envOf [("JES_CMD", "cmd"), ("JES_ARGC", "51")]) "cmd".toList
        rfl).2.2.1 rfl)⟩

/-- C22 (counterexample to the claim as stated): with `JES_CMD` set and
`JES_ARGC = -9223372036854775809`, a decimal integer that is present and not greater than 50,
`buildExecArgs` returns an error: `strconv.Atoi` reports the value as out of the range of
`int`. -/
theorem buildExecArgs_rejects_small_integer :
    buildExecArgs (envOf [("JES_CMD", "cmd"), ("JES_ARGC", "-9223372036854775809")]) =
      ([], some "value out of range") ∧
    isDecimalInteger "-9223372036854775809".toList = true ∧
    decimalValue "-9223372036854775809".toList = -9223372036854775809 ∧
    ¬ decimalValue "-9223372036854775809".toList > 50 := by
  refine ⟨rfl, by decide, by decide, by decide⟩

theorem buildExecArgs_loop_eq (e : EnvMap) (k : Nat) :
    ∀ i : Nat, buildExecArgs.loop e k i =
      (List.range' i k).filterMap
        (fun j => (e (jesArgPrefix ++ decimal j)).filter (fun v => decide (v ≠ []))) := by
  induction k with
  | zero => intro i; rfl
  | succ k ih =>
    intro i
    unfold buildExecArgs.loop
    rw [List.range'_succ, List.filterMap_cons, ← ih (i + 1)]
    cases h : e (jesArgPrefix ++ decimal i) with
    | none => rfl
    | some v =>
      cases v with
      | nil => rfl
      | cons c v => simp [Option.filter]

/-- C23: for every environment map with `JES_CMD` present and `JES_ARGC = n`, `0 ≤ n ≤ 50`,
`buildExecArgs` returns no error and `JES_CMD` followed by, for `i = 0..n-1` in increasing
order, the value of `JES_ARG_i` for exactly those `i` whose variable is present and non-empty.
So `n = 0` yields exactly `[JES_CMD]`, and the result has between 1 and `n + 1` elements. -/
theorem buildExecArgs_args (e : EnvMap) (cmd : List Char) (n : Nat)
    (hcmd : e jesCmdEnvVar = some cmd) (hn : e jesArgCountEnvVar = some (decimal n))
    (h50 : n ≤ 50) :
    buildExecArgs e =
      (cmd :: (List.range n).filterMap
        (fun i => (e (jesArgPrefix ++ decimal i)).filter (fun v => decide (v ≠ []))), none) ∧
    1 ≤ (buildExecArgs e).1.length ∧ (buildExecArgs e).1.length ≤ n + 1 ∧
    (n = 0 → buildExecArgs e = ([cmd], none)) := by
  have hA : strconv.Atoi ((e jesArgCountEnvVar).getD []) = ((n : Int), none) := by
    rw [hn]
    exact Atoi_decimal n (by omega)
  have hres : buildExecArgs e =
      (cmd :: (List.range n).filterMap
        (fun i => (e (jesArgPrefix ++ decimal i)).filter (fun v => decide (v ≠ []))),
        none) := by
    unfold buildExecArgs
    simp only [hcmd, hA]
    rw [if_neg (by omega), buildExecArgs_loop_eq, List.range_eq_range']
    rfl
  refine ⟨hres, ?_, ?_, fun h0 => ?_⟩
  · rw [hres]; simp
  · rw [hres]
    have := List.length_filterMap_le
      (fun i => (e (jesArgPrefix ++ decimal i)).filter (fun v => decide (v ≠ [])))
      (List.range n)
    simp only [List.length_cons, List.length_range] at this ⊢
    omega
  · rw [hres, h0]; rfl

/-- Witness for C23: as in `TestBuildExecArgsShould`, a map with `JES_ARGC = 2` and only
`JES_ARG_0` set yields 2 elements, the command and that argument. -/
theorem buildExecArgs_args_witness :
    buildExecArgs (envOf [("JES_ARGC", "2"), ("JES_ARG_0", "arg1"), ("JES_CMD", "cmd")]) =
      (["cmd".toList, "arg1".toList], none) ∧
    (buildExecArgs
      (envOf [("JES_ARGC", "2"), ("JES_ARG_0", "arg1"), ("JES_CMD", "cmd")])).1.length = 2 := by
  have h := (buildExecArgs_args
    (envOf [("JES_ARGC", "2"), ("JES_ARG_0", "arg1"), ("JES_CMD", "cmd")]) "cmd".toList 2
    rfl rfl (by decide)).1
  rw [h]
  constructor <;> rfl

theorem decimal_injective (i j : Nat) (h : decimal i = decimal j) : i = j := by
  have hi := (decimal_spec i).2.2
  have hj := (decimal_spec j).2.2
  rw [h] at hi
  exact hi.symm.trans hj

theorem jesArgPrefix_eq : jesArgPrefix = ['J', 'E', 'S', '_', 'A', 'R', 'G', '_'] := rfl

theorem argName_not_mem (i : Nat) : '=' ∉ jesArgPrefix ++ decimal i := by
  intro h
  rcases List.mem_append.1 h with h | h
  · exact absurd h (by decide)
  · exact not_mem_decimal i '=' (by decide) h

theorem argName_injective (i j : Nat)
    (h : jesArgPrefix ++ decimal i = jesArgPrefix ++ decimal j) : i = j :=
  decimal_injective i j (List.append_cancel_left h)

theorem argName_ne (i : Nat) :
    jesArgPrefix ++ decimal i ≠ jesCmdEnvVar ∧ jesArgPrefix ++ decimal i ≠ jesChildEnvVar ∧
      jesArgPrefix ++ decimal i ≠ jesArgCountEnvVar := by
  have hC : jesCmdEnvVar = ['J', 'E', 'S', '_', 'C', 'M', 'D'] := rfl
  have hH : jesChildEnvVar = ['J', 'E', 'S', '_', 'C', 'H', 'I', 'L', 'D'] := rfl
  have hN : jesArgCountEnvVar = ['J', 'E', 'S', '_', 'A', 'R', 'G', 'C'] := rfl
  rw [jesArgPrefix_eq, hC, hH, hN]
  refine ⟨?_, ?_, ?_⟩ <;> simp

theorem environmentToMap_loop_args (a : List (List Char)) :
    ∀ (i : Nat) (env : EnvMap) (tail : List (List Char)),
      ∃ env' : EnvMap,
        environmentToMap.loop env (generateEnv.args i a ++ tail) =
          environmentToMap.loop env' tail ∧
        (∀ j v, a[j]? = some v → env' (jesArgPrefix ++ decimal (i + j)) = some v) ∧
        (∀ k, (∀ j, j < a.length → k ≠ jesArgPrefix ++ decimal (i + j)) → env' k = env k) := by
  induction a with
  | nil =>
    intro i env tail
    exact ⟨env, rfl, fun j v h => absurd h (by simp), fun _ _ => rfl⟩
  | cons s rest ih =>
    intro i env tail
    obtain ⟨env', h1, h2, h3⟩ := ih (i + 1)
      (fun x => if x = jesArgPrefix ++ decimal i then some s else env x) tail
    refine ⟨env', ?_, ?_, ?_⟩
    · show environmentToMap.loop env
        (((jesArgPrefix ++ decimal i) ++ '=' :: s) :: (generateEnv.args (i + 1) rest ++ tail)) = _
      rw [environmentToMap_loop_cons env _ s _ (argName_not_mem i)]
      exact h1
    · intro j v hj
      cases j with
      | zero =>
        simp only [List.getElem?_cons_zero, Option.some.injEq] at hj
        rw [h3 _ (fun j' _ hk => by
          have := argName_injective _ _ hk
          omega)]
        simp [hj]
      | succ j =>
        simp only [List.getElem?_cons_succ] at hj
        have := h2 j v hj
        rw [show i + (j + 1) = i + 1 + j by omega]
        exact this
    · intro k hk
      rw [h3 k (fun j hj => by
        have := hk (j + 1) (by simp only [List.length_cons]; omega)
        rw [show i + (j + 1) = i + 1 + j by omega] at this
        exact this)]
      have h0 := hk 0 (by simp)
      simp only [Nat.add_zero] at h0
      simp [h0]

theorem environmentToMap_generateEnv (c : List Char) (a : List (List Char)) :
    ∃ m : EnvMap, environmentToMap (generateEnv c a) = some m ∧
      m jesCmdEnvVar = some c ∧ m jesChildEnvVar = some "true".toList ∧
      m jesArgCountEnvVar = some (decimal a.length) ∧
      (∀ j v, a[j]? = some v → m (jesArgPrefix ++ decimal j) = some v) := by
  obtain ⟨env', h1, h2, -⟩ := environmentToMap_loop_args a 0 (fun _ => none)
    [jesCmdEnvVar ++ '=' :: c, jesChildEnvVar ++ '=' :: "true".toList,
      jesArgCountEnvVar ++ '=' :: decimal a.length]
  refine ⟨fun x => if x = jesArgCountEnvVar then some (decimal a.length)
      else if x = jesChildEnvVar then some "true".toList
      else if x = jesCmdEnvVar then some c else env' x, ?_, ?_, ?_, ?_, ?_⟩
  · unfold environmentToMap generateEnv
    rw [h1, environmentToMap_loop_cons _ _ _ _ (by decide),
      environmentToMap_loop_cons _ _ _ _ (by decide),
      environmentToMap_loop_cons _ _ _ _ (by decide)]
    rfl
  · beta_reduce
    rw [if_neg (by decide), if_neg (by decide), if_pos rfl]
  · beta_reduce
    rw [if_neg (by decide), if_pos rfl]
  · beta_reduce
    rw [if_pos rfl]
  · intro j v hj
    have hne := argName_ne j
    have := h2 j v hj
    simp only [Nat.zero_add] at this
    beta_reduce
    rw [if_neg hne.2.2, if_neg hne.2.1, if_neg hne.1, this]

theorem buildExecArgs_loop_args (e : EnvMap) (a : List (List Char)) :
    ∀ i : Nat, (∀ j v, a[j]? = some v → e (jesArgPrefix ++ decimal (i + j)) = some v) →
      buildExecArgs.loop e a.length i = a.filter (fun s => decide (s ≠ [])) := by
  induction a with
  | nil => intro i _; rfl
  | cons s rest ih =>
    intro i h
    have h0 := h 0 s (by simp)
    simp only [Nat.add_zero] at h0
    have hrest := ih (i + 1) (fun j v hj => by
      have := h (j + 1) v (by simpa using hj)
      rw [show i + (j + 1) = i + 1 + j by omega] at this
      exact this)
    show buildExecArgs.loop e (rest.length + 1) i = _
    unfold buildExecArgs.loop
    rw [h0, hrest]
    cases s with
    | nil => simp
    | cons c s => simp

theorem decimalValue_decimal (n : Nat) :
    isDecimalInteger (decimal n) = true ∧ decimalValue (decimal n) = (n : Int) := by
  obtain ⟨hne, hdig, hval⟩ := decimal_spec n
  obtain ⟨c, D, hD⟩ := List.exists_cons_of_ne_nil hne
  have hc : c.isDigit = true := hdig c (by rw [hD]; simp)
  have hminus : c ≠ '-' := fun e => by rw [e] at hc; exact absurd hc (by decide)
  have hplus : c ≠ '+' := fun e => by rw [e] at hc; exact absurd hc (by decide)
  have hall : (decimal n).all Char.isDigit = true := List.all_eq_true.2 hdig
  have hhead : (decimal n).head? = some c := by rw [hD]; rfl
  have hdd : decimalDigits (decimal n) = decimal n := by
    unfold decimalDigits
    rw [if_neg (by simp [hhead, hminus, hplus])]
  constructor
  · unfold isDecimalInteger
    rw [hdd, hall]
    simp [hne]
  · unfold decimalValue
    rw [hdd, hval, if_neg (by simp [hhead, hminus])]

/-- C24 (as amended): for every command and every argument list, of any length, the entry
`JES_ARGC` emitted by `generateEnv` is the last one and its value is the decimal of the
argument count, not capped: a decimal integer whose value is the count, hence greater than 50
for more than 50 arguments. It is the value the helper finds in its environment map, and the
limit is enforced there: `buildExecArgs` returns an error, and no arguments, exactly when the
count is greater than 50, the error being `too many arguments, 50 is the limit` for a count in
the range of `int`. -/
theorem generateEnv_argc (c : List Char) (a : List (List Char)) :
    (generateEnv c a).getLast? = some (jesArgCountEnvVar ++ '=' :: decimal a.length) ∧
    isDecimalInteger (decimal a.length) = true ∧
    decimalValue (decimal a.length) = (a.length : Int) ∧
    ∃ m : EnvMap, environmentToMap (generateEnv c a) = some m ∧
      m jesArgCountEnvVar = some (decimal a.length) ∧
      ((buildExecArgs m).2 ≠ none ↔ a.length > 50) ∧
      (a.length > 50 → (buildExecArgs m).1 = []) ∧
      (a.length > 50 → a.length < 9223372036854775808 →
        buildExecArgs m = ([], some "too many arguments, 50 is the limit")) := by
  obtain ⟨hdec, hval⟩ := decimalValue_decimal a.length
  refine ⟨by simp [generateEnv], hdec, hval, ?_⟩
  obtain ⟨m, h1, hcmd, -, h4, -⟩ := environmentToMap_generateEnv c a
  obtain ⟨herr, hempty⟩ := buildExecArgs_error m c hcmd
  have hget : (m jesArgCountEnvVar).getD [] = decimal a.length := by rw [h4]; rfl
  rw [hget] at herr
  obtain ⟨hA, hV⟩ := Atoi_spec (decimal a.length)
  have hiff : (buildExecArgs m).2 ≠ none ↔ a.length > 50 := by
    rw [herr]
    by_cases hok : (strconv.Atoi (decimal a.length)).2 = none
    · have hv := hV hok
      rw [hval] at hv
      rw [hv]
      constructor
      · rintro (h | h)
        · exact absurd hok h
        · omega
      · intro h
        exact Or.inr (by omega)
    · constructor
      · intro _
        by_contra hle
        apply hok
        rw [hA, hval]
        exact ⟨hdec, by omega, by omega⟩
      · intro _
        exact Or.inl hok
  refine ⟨m, h1, h4, hiff, fun h => hempty (hiff.2 h), fun h hlt => ?_⟩
  unfold buildExecArgs
  simp only [hcmd, hget, Atoi_decimal a.length hlt]
  rw [if_pos (by omega)]

/-- Witness for C24 as amended: for 60 arguments the entry emitted is `JES_ARGC=60` and the
helper answers that there are too many arguments. -/
theorem generateEnv_argc_witness :
    (generateEnv "cmd".toList (List.replicate 60 "x".toList)).getLast? =
      some "JES_ARGC=60".toList ∧
    (environmentToMap (generateEnv "cmd".toList (List.replicate 60 "x".toList))).map
      buildExecArgs = some ([], some "too many arguments, 50 is the limit") := by
  obtain ⟨hlast, -, -, m, hm, -, -, -, hmsg⟩ :=
    generateEnv_argc "cmd".toList (List.replicate 60 "x".toList)
  refine ⟨by rw [hlast]; rfl, ?_⟩
  rw [hm, Option.map_some', hmsg (by simp) (by simp)]

/-- C24 (counterexample to the claim as stated): for a list of 51 arguments `generateEnv` emits
`JES_ARGC=51`, a value greater than 50; the helper's `buildExecArgs` then refuses the
environment. -/
theorem generateEnv_argc_not_capped :
    (generateEnv "cmd".toList (List.replicate 51 "x".toList)).getLast? =
      some "JES_ARGC=51".toList ∧
    strconv.Atoi "51".toList = (51, none) ∧
    (environmentToMap (generateEnv "cmd".toList (List.replicate 51 "x".toList))).map
      buildExecArgs = some ([], some "too many arguments, 50 is the limit") := by
  refine ⟨rfl, rfl, rfl⟩

/-- C29: for every command path `c` and every list `a` of at most 50 arguments, the map obtained
from `generateEnv c a` by splitting each entry at its first `=`, as `environmentToMap` does, is
built without panic, and `buildExecArgs` applied to it returns no error and `c` followed by the
non-empty elements of `a` in order. When every argument is non-empty this is exactly `c`
followed by `a`; when some argument is the empty string the result differs from `c` followed
by `a`, the empty argument being dropped. -/
theorem generateEnv_round_trip (c : List Char) (a : List (List Char))
    (hlen : a.length ≤ 50) :
    ∃ m : EnvMap, environmentToMap (generateEnv c a) = some m ∧
      buildExecArgs m = (c :: a.filter (fun s => decide (s ≠ [])), none) ∧
      ((∀ s ∈ a, s ≠ []) → buildExecArgs m = (c :: a, none)) ∧
      ([] ∈ a → (buildExecArgs m).1 ≠ c :: a) := by
  obtain ⟨m, h1, hcmd, -, hargc, hargs⟩ := environmentToMap_generateEnv c a
  have hA : strconv.Atoi ((m jesArgCountEnvVar).getD []) = ((a.length : Int), none) := by
    rw [hargc]
    exact Atoi_decimal a.length (by omega)
  have hloop := buildExecArgs_loop_args m a 0 (fun j v hj => by
    rw [Nat.zero_add]; exact hargs j v hj)
  have hres : buildExecArgs m = (c :: a.filter (fun s => decide (s ≠ [])), none) := by
    unfold buildExecArgs
    simp only [hcmd, hA]
    rw [if_neg (by omega), Int.toNat_ofNat, hloop]
  refine ⟨m, h1, hres, fun hall => ?_, fun hmem => ?_⟩
  · rw [hres, List.filter_eq_self.2 (fun s hs => by simpa using hall s hs)]
  · rw [hres]
    intro heq
    have hf : a.filter (fun s => decide (s ≠ [])) = a := List.tail_eq_of_cons_eq heq
    have := List.filter_eq_self.1 hf [] hmem
    simp at this

/-- Witness for C29: the command `/bin/echo` with the arguments `-n` and `a=b` is rebuilt
exactly, and with an empty argument in between the rebuilt vector has lost it. -/
theorem generateEnv_round_trip_witness :
    (environmentToMap (generateEnv "/bin/echo".toList ["-n".toList, "a=b".toList])).map
      buildExecArgs = some (["/bin/echo".toList, "-n".toList, "a=b".toList], none) ∧
    (environmentToMap (generateEnv "/bin/echo".toList ["-n".toList, [], "a=b".toList])).map
      buildExecArgs = some (["/bin/echo".toList, "-n".toList, "a=b".toList], none) := by
  obtain ⟨m, h1, -, h3, -⟩ := generateEnv_round_trip "/bin/echo".toList
    ["-n".toList, "a=b".toList] (by decide)
  obtain ⟨m', h1', h2', -, -⟩ := generateEnv_round_trip "/bin/echo".toList
    ["-n".toList, [], "a=b".toList] (by decide)
  constructor
  · rw [h1, Option.map_some', h3 (by decide)]
  · rw [h1', Option.map_some', h2']
    rfl

/-! ## Properties of the polling reader and of `Executor.Get` -/

/-- A read that is not the pair of no bytes and `io.EOF` on a running job is returned as the
underlying reader gave it, without waiting. -/
theorem Read_unchanged (r : pollingReader) (n : Nat) (err : Option ReadError)
    (h : ¬ (n = 0 ∧ err = some .EOF ∧ r.p.Status.State = .Running)) :
    r.Read (n, err) = { n := n, err := err, slept := false } := by
  unfold pollingReader.Read
  exact if_neg h

/-- C26 (as amended): for every job and every `N > 0`, when the underlying read returns `N`
bytes with no error the polling reader returns `N` bytes with no error, whatever the state of
the job; when the underlying read returns `N` bytes together with `io.EOF` and the job is
`Completed` or `Failed`, the polling reader returns the `N` bytes and `io.EOF` in the same
call. In neither case does it wait. -/
theorem Read_bytes (r : pollingReader) (N : Nat) (hN : 0 < N) :
    r.Read (N, none) = { n := N, err := none, slept := false } ∧
    (r.p.Status.State = .Completed ∨ r.p.Status.State = .Failed →
      r.Read (N, some .EOF) = { n := N, err := some .EOF, slept := false }) := by
  refine ⟨Read_unchanged r N none (by simp), fun _ => Read_unchanged r N _ (by omega)⟩

/-- Witness for C26: five bytes read from the output of a running job, and five bytes read
together with `io.EOF` from the output of a job whose child exited with code 7. -/
theorem Read_bytes_witness :
    pollingReader.Read ⟨runningJob⟩ (5, none) = { n := 5, err := none, slept := false } ∧
    failedJob.Status.State = .Failed ∧
    pollingReader.Read ⟨failedJob⟩ (5, some .EOF) =
      { n := 5, err := some .EOF, slept := false } :=
  ⟨(Read_bytes ⟨runningJob⟩ 5 (by decide)).1, by decide,
    (Read_bytes ⟨failedJob⟩ 5 (by decide)).2 (Or.inr (by decide))⟩

/-- C26 (counterexample to the claim as stated): on a job that is `Completed`, an underlying
read of five bytes together with `io.EOF` is returned with the error `io.EOF`, not with no
error. -/
theorem Read_bytes_with_EOF :
    completedJob.Status.State = .Completed ∧
    pollingReader.Read ⟨completedJob⟩ (5, some .EOF) =
      { n := 5, err := some .EOF, slept := false } ∧
    (pollingReader.Read ⟨completedJob⟩ (5, some .EOF)).err ≠ none := by
  decide

/-- C27: for every job, an underlying read of no bytes with `io.EOF` is returned as no bytes
and no error, after the wait of 250 ms, when the job is `Running`, and as no bytes and `io.EOF`
when the job is `Completed` or `Failed`; an error other than `io.EOF` is returned unchanged
together with the byte count, whatever the state of the job. -/
theorem Read_no_bytes (r : pollingReader) :
    (r.p.Status.State = .Running →
      r.Read (0, some .EOF) = { n := 0, err := none, slept := true }) ∧
    (r.p.Status.State = .Completed ∨ r.p.Status.State = .Failed →
      r.Read (0, some .EOF) = { n := 0, err := some .EOF, slept := false }) ∧
    (∀ (n : Nat) (msg : String),
      r.Read (n, some (.other msg)) = { n := n, err := some (.other msg), slept := false }) := by
  refine ⟨fun h => ?_, fun h => ?_, fun n msg => ?_⟩
  · unfold pollingReader.Read
    rw [if_pos ⟨rfl, rfl, h⟩]
    rfl
  · apply Read_unchanged
    rintro ⟨-, -, h3⟩
    rw [h3] at h
    simp at h
  · apply Read_unchanged
    rintro ⟨-, h2, -⟩
    simp at h2

/-- Witness for C27: the three cases on a running job, on a completed job and on a failed
job. -/
theorem Read_no_bytes_witness :
    runningJob.Status.State = .Running ∧
    pollingReader.Read ⟨runningJob⟩ (0, some .EOF) = { n := 0, err := none, slept := true } ∧
    completedJob.Status.State = .Completed ∧
    pollingReader.Read ⟨completedJob⟩ (0, some .EOF) =
      { n := 0, err := some .EOF, slept := false } ∧
    failedJob.Status.State = .Failed ∧
    pollingReader.Read ⟨failedJob⟩ (0, some .EOF) =
      { n := 0, err := some .EOF, slept := false } ∧
    pollingReader.Read ⟨runningJob⟩ (3, some (.other "input/output error")) =
      { n := 3, err := some (.other "input/output error"), slept := false } :=
  ⟨by decide, (Read_no_bytes ⟨runningJob⟩).1 (by decide),
    by decide, (Read_no_bytes ⟨completedJob⟩).2.1 (Or.inl (by decide)),
    by decide, (Read_no_bytes ⟨failedJob⟩).2.1 (Or.inr (by decide)),
    (Read_no_bytes ⟨runningJob⟩).2.2 3 "input/output error"⟩

/-- The field `Error` of what `Executor.Get` returns is the field `Err` of the command of the
job, whatever the status of the job holds. -/
theorem Get_Error (s : Executor) (ID : Nat) (p : process) (cmd : Cmd) (info : ProcInfo)
    (hp : s.jobs.lookup ID = some p) (hcmd : p.execCmd = some cmd)
    (hget : s.Get ID = some (some info)) : info.Error = cmd.Err := by
  unfold Executor.Get at hget
  rw [hp] at hget
  simp only [hcmd] at hget
  simp only [Option.some.injEq] at hget
  rw [← hget]

/-- C28 (the divergence): the job registered by a successful `Start` on a new executor gets
ID 0; once its child has terminated with exit status 7 the job is `Failed` and its
`process.Error` is the error recorded by the waiter, `exit status 7`, yet the `ProcInfo`
returned by `Executor.Get` has state `Failed` and a nil `Error`. The same holds for every wait
result: the `Error` returned by `Get` is nil. -/
theorem Get_Error_nil_after_failure :
    (freshExecutor.Start sleepConfig 0 1 spawnOk).2 = (0, none) ∧
    (((freshExecutor.Start sleepConfig 0 1 spawnOk).1.reaped 0
      (some (.exited 7), 2)).jobs.lookup 0).map (fun p => (p.Status.State, p.Error)) =
      some (.Failed, some "exit status 7") ∧
    (((freshExecutor.Start sleepConfig 0 1 spawnOk).1.reaped 0
      (some (.exited 7), 2)).Get 0).map (Option.map (fun i => (i.State, i.Error))) =
      some (some ("Failed", none)) ∧
    ∀ (state : ProcessState) (now : Time),
      (((freshExecutor.Start sleepConfig 0 1 spawnOk).1.reaped 0
        (state, now)).Get 0).map (Option.map (fun i => i.Error)) = some (some none) := by
  refine ⟨by decide, by decide, by decide, fun state now => ?_⟩
  rfl

end Minidocker
